import Mathlib

/-!
# PersistentQueue: a file-backed message queue

Shallow embedding of `src/PersistentQueue.h` and `src/PersistentQueue.cpp`.

* `uint32_t` values are natural numbers below `2^32`; wrap-around is written out with
  `u32`.  The target is a 32-bit little-endian machine: `int` and `long` have 32 bits, so
  `%d` prints a `uint32_t` above `2^31 - 1` as a negative number and `atol` saturates at
  the bounds of a 32-bit `long`.
* An Arduino `String` is a list of characters, one per `char`.
* The filesystem `PQ_FS` is an external collaborator.  It is represented by the state
  `FS`: what enumerating the directory `m_prefix` yields, the naming convention of
  `file.name()`, the paths on which the driver refuses an operation and the bytes a
  `write` does not store.  A `File` that was closed tests false.
* The header is read in its default configuration (`PQ_USES_SPIFFS`).
* Every member function becomes a function from the object state (and the filesystem)
  to the returned value and the new state; a `while (file)` loop becomes a recursion over
  the children that `openNextFile` has still to deliver.
-/

namespace PQ

/-! ## Machine words, bytes and strings -/

/-- One `uint8_t`. -/
abbrev Byte := Fin 256

/-- An Arduino `String` / C string: one list element per `char`. -/
abbrev Str := List Char

/-- Largest `uint32_t`. -/
def UINT32_MAX : Nat := 4294967295

/-- Conversion of an integer value to `uint32_t`. -/
def u32 (n : Nat) : Nat := n % 4294967296

/-- Conversion of a (signed) `long` to `uint32_t`. -/
def u32OfInt (z : Int) : Nat := (z % 4294967296).toNat

/-- The four bytes of a `uint32_t` as they lie in memory (little-endian target), which is
what `F.write((const uint8_t*) &x, sizeof(uint32_t))` sends to the file. -/
def le32 (n : Nat) : List Byte :=
  [Fin.ofNat (n % 256), Fin.ofNat (n / 256 % 256), Fin.ofNat (n / 65536 % 256),
   Fin.ofNat (n / 16777216 % 256)]

/-- Value of a `uint32_t` variable initialised to `0` after
`read((uint8_t*) &x, sizeof(uint32_t))` delivered the bytes `bs` (at most four are
consumed; bytes not delivered stay zero). -/
def rd32 (bs : List Byte) : Nat :=
  ((bs.take 4).reverse).foldl (fun acc b => acc * 256 + b.val) 0

/-- `String::startsWith`. -/
def startsWith (s p : Str) : Bool := p.isPrefixOf s

/-- `String::endsWith`. -/
def endsWith (s p : Str) : Bool := p.reverse.isPrefixOf s.reverse

/-- `String::substring(left, right)` for `left ≤ right`. -/
def substring (s : Str) (left right : Nat) : Str := (s.drop left).take (right - left)

/-- Character of a decimal digit. -/
def digitChar (d : Nat) : Char := Char.ofNat (48 + d % 10)

/-- The `w` low decimal digits of `n`, most significant first. -/
def fixedDigits : Nat → Nat → Str
  | 0, _ => []
  | w + 1, n => fixedDigits w (n / 10) ++ [digitChar n]

/-- Output of `printf("%010d", x)` where `x` is the `uint32_t` bit pattern `name`, read by
`%d` as a 32-bit `int`: at least ten characters, zero padded, the sign counted in the
width. -/
def fmt010d (name : Nat) : Str :=
  if name < 2147483648 then fixedDigits 10 name
  else if 4294967296 - name < 1000000000 then '-' :: fixedDigits 9 (4294967296 - name)
  else '-' :: fixedDigits 10 (4294967296 - name)

/-- Output of `printf("%02d", i)` for a `uint8_t` value `i`. -/
def fmt02d (i : Nat) : Str :=
  if i < 100 then fixedDigits 2 i else fixedDigits 3 i

/-- C `isspace` in the "C" locale. -/
def isSpace (c : Char) : Bool :=
  c.toNat = 32 || (9 ≤ c.toNat && c.toNat ≤ 13)

/-- Value of the leading run of decimal digits of `s`, continuing from `acc`. -/
def leadingDigits : Str → Nat → Nat
  | [], acc => acc
  | c :: cs, acc =>
    if 48 ≤ c.toNat ∧ c.toNat ≤ 57 then leadingDigits cs (acc * 10 + (c.toNat - 48)) else acc

/-- C `atol` on a 32-bit `long` (`strtol(s, NULL, 10)`): leading white space, an optional
sign, then digits; out-of-range values saturate. -/
def atol (s : Str) : Int :=
  match s.dropWhile isSpace with
  | '-' :: t => max (-(leadingDigits t 0 : Int)) (-2147483648)
  | '+' :: t => min (leadingDigits t 0 : Int) 2147483647
  | t => min (leadingDigits t 0 : Int) 2147483647

/-- `String::toInt`. -/
def toInt (s : Str) : Int := atol s

/-! ## Checksum -/

/-- The 16-entry table `pq_crc32tab`. -/
def pq_crc32tab : List Nat :=
  [0x00000000, 0x1db71064, 0x3b6e20c8, 0x26d930ac, 0x76dc4190,
   0x6b6b51f4, 0x4db26158, 0x5005713c, 0xedb88320, 0xf00f9344,
   0xd6d6a3e8, 0xcb61b38c, 0x9b64c2b0, 0x86d3d2d4, 0xa00ae278,
   0xbdbdf21c]

/-- Table lookup `pq_crc32tab[i]`. -/
def tabAt (i : Nat) : Nat := pq_crc32tab.getD i 0

/-- One four-bit reduction: `crc = pq_crc32tab[crc & 0x0f] ^ (crc >> 4)`. -/
def crcNibble (crc : Nat) : Nat := tabAt (crc &&& 0x0f) ^^^ (crc >>> 4)

/-- Body of the loop of `pq_crc32` for one input byte. -/
def crcByte (crc : Nat) (b : Byte) : Nat :=
  crcNibble (crcNibble (crc ^^^ b.val))

/-- The function `pq_crc32(data, length, crc)` with `data` holding `length` bytes. -/
def pq_crc32 (data : List Byte) (crc : Nat) : Nat := data.foldl crcByte crc

/-- The call `pq_crc32(data, length)` with the default third argument `0xffffffff`. -/
def pq_crc32_default (data : List Byte) : Nat := pq_crc32 data 0xffffffff

/-! ## The filesystem `PQ_FS` -/

/-- One child of the queue directory, as `openNextFile` hands it out. -/
structure Entry where
  /-- What `file.name()` returns. -/
  name : Str
  /-- What `file.isDirectory()` returns. -/
  isDir : Bool
  /-- The bytes a sequence of `read` calls delivers; `size()` is their number. -/
  content : List Byte
deriving DecidableEq, Repr

/-- State of the filesystem as seen from the directory `m_prefix`. -/
structure FS where
  /-- Whether `PQ_FS.open(m_prefix)` yields a handle with `isDirectory()`. -/
  isDirectory : Bool
  /-- The children of the directory in the order `openNextFile` enumerates them. -/
  entries : List Entry
  /-- Naming convention of `file.name()`: the full path (IDF 3.x) when `true`, the bare
  name relative to the directory (IDF 4.x and above) when `false`. -/
  pathNames : Bool
  /-- Files that were created at paths outside the directory. -/
  elsewhere : List (Str × List Byte)
  /-- Paths at which `open(path, "w+")` fails. -/
  denyCreate : List Str
  /-- Paths at which `open(path, "r")` fails. -/
  denyOpen : List Str
  /-- Paths at which `remove(path)` fails. -/
  denyRemove : List Str
  /-- Bytes that `write` does not store.  For a path: the offsets, counted through the
  bytes handed to the successive `write` calls on a handle newly opened there, of the
  bytes that do not reach the file (a `write` that returns less than its length leaves out
  the rest of its buffer).  A path that is not listed stores everything. -/
  unwritten : List (Str × List Nat)
deriving DecidableEq, Repr

/-- Full path of a child of the directory `pfx`. -/
def pathOf (fs : FS) (pfx : Str) (e : Entry) : Str :=
  if fs.pathNames then e.name else pfx ++ '/' :: e.name

/-- `PQ_FS.exists(p)`. -/
def fsExists (fs : FS) (pfx p : Str) : Bool :=
  fs.entries.any (fun e => pathOf fs pfx e == p) || fs.elsewhere.any (fun f => f.1 == p)

/-- Whether the path `fn` names a child of the directory `pfx`. -/
def inDirectory (pfx fn : Str) : Bool :=
  startsWith fn (pfx ++ ['/']) && decide (pfx.length + 1 < fn.length)

/-- The bytes of `bytes`, from offset `i` of the stream on, that are stored when the
bytes at the offsets `lost` are not. -/
def written (lost : List Nat) : Nat → List Byte → List Byte
  | _, [] => []
  | i, b :: bs => if i ∈ lost then written lost (i + 1) bs else b :: written lost (i + 1) bs

/-- What a file newly created at `fn` holds after `write` calls that were handed `bytes`
in all. -/
def fsStored (fs : FS) (fn : Str) (bytes : List Byte) : List Byte :=
  match fs.unwritten.lookup fn with
  | none => bytes
  | some lost => written lost 0 bytes

/-- `PQ_FS.open(fn, "w+")` followed by `write` calls that are handed `bytes` in all and
`close()`, for a path that does not exist yet (the only use in `enqueue`, which does not
look at what `write` returns); `none` when the open fails.  A new child of the directory
is enumerated after the existing ones. -/
def fsCreate (fs : FS) (pfx fn : Str) (bytes : List Byte) : Option FS :=
  if fn ∈ fs.denyCreate then none
  else if inDirectory pfx fn then
    some { fs with entries := fs.entries ++
      [⟨if fs.pathNames then fn else fn.drop (pfx.length + 1), false, fsStored fs fn bytes⟩] }
  else some { fs with elsewhere := fs.elsewhere ++ [(fn, fsStored fs fn bytes)] }

/-- `PQ_FS.open(fp, "r")`: the content of the file at `fp`, `none` when the handle tests
false. -/
def fsOpenRead (fs : FS) (pfx fp : Str) : Option (List Byte) :=
  if fp ∈ fs.denyOpen then none
  else match fs.entries.find? (fun e => pathOf fs pfx e == fp) with
    | some e => some e.content
    | none => (fs.elsewhere.find? (fun f => f.1 == fp)).map (fun f => f.2)

/-- `PQ_FS.remove(fp)`: the returned flag and the filesystem afterwards. -/
def fsRemove (fs : FS) (pfx fp : Str) : Bool × FS :=
  if fp ∈ fs.denyRemove then (false, fs)
  else if fs.entries.any (fun e => pathOf fs pfx e == fp) then
    (true, { fs with entries := fs.entries.eraseP (fun e => pathOf fs pfx e == fp) })
  else if fs.elsewhere.any (fun f => f.1 == fp) then
    (true, { fs with elsewhere := fs.elsewhere.eraseP (fun f => f.1 == fp) })
  else (false, fs)

/-! ## `PersistentQueue.h` -/

/-- The enumeration `pqDequeueOrder_t`. -/
inductive pqDequeueOrder_t where
  | PQ_DEQUEUE_DEFAULT
  | PQ_DEQUEUE_OLDEST
  | PQ_DEQUEUE_LATEST
deriving DecidableEq, Repr

/-- The enumeration `pqError_t`. -/
inductive pqError_t where
  | PQ_ERROR_OK
  | PQ_ERROR_NOT_INITIALIZED
  | PQ_ERROR_FILE_OP
  | PQ_ERROR_OUT_OF_SUBNUMBERS
  | PQ_ERROR_INVALID_PREFIX
  | PQ_ERROR_QUEUE_EMPTY
  | PQ_ERROR_INVALID_MAGIC
  | PQ_ERROR_OUT_OF_MEMORY
  | PQ_ERROR_BAD_CRC
  | PQ_ERROR_NULL_POINTER
  | PQ_ERROR_SMALL_BUFFER
  | PQ_ERROR_OTHER
deriving DecidableEq, Repr

open pqDequeueOrder_t pqError_t

/-- `PQ_DEFAULT_MN`. -/
def PQ_DEFAULT_MN : Nat := 0xA55AC0DE

/-- `PQ_MAX_PREFIX_SIZE` of the default (`PQ_USES_SPIFFS`) configuration. -/
def PQ_MAX_PREFIX_SIZE : Nat := 31 - 10 - 1 - 2

/-- `PQ_MAX_FILENAME_SIZE` of the default (`PQ_USES_SPIFFS`) configuration. -/
def PQ_MAX_FILENAME_SIZE : Nat := 31

/-- `PQ_MAX_SUBFILENAMES`. -/
def PQ_MAX_SUBFILENAMES : Nat := 100

/-- The data members of `class PersistentQueue` (`m_stream` is never used). -/
structure PersistentQueue where
  m_counter : Nat
  m_current_max : Nat
  m_magic : Nat
  m_calcCRC : Bool
  m_initialized : Bool
  m_order : pqDequeueOrder_t
  m_prefix : Str
  m_lastError : pqError_t
deriving DecidableEq, Repr

/-- `getLastError()`. -/
def getLastError (q : PersistentQueue) : pqError_t := q.m_lastError

/-- The constructor.  It does not assign `m_current_max`; `indeterminate` is the value
that member happens to hold. -/
def construct (magic_num : Nat) (dq_order : pqDequeueOrder_t) (calculate_crc : Bool)
    (indeterminate : Nat) : PersistentQueue :=
  { m_magic := u32 magic_num
    m_calcCRC := calculate_crc
    m_order := dq_order
    m_counter := 1
    m_initialized := false
    m_lastError := PQ_ERROR_OK
    m_current_max := u32 indeterminate
    m_prefix := [] }

/-- `end()`. -/
def end_ (q : PersistentQueue) : PersistentQueue :=
  { q with m_lastError := PQ_ERROR_OK, m_initialized := false }

/-- `checkInitialized()`. -/
def checkInitialized (q : PersistentQueue) : Bool × PersistentQueue :=
  if !q.m_initialized then (false, { q with m_lastError := PQ_ERROR_NOT_INITIALIZED })
  else (true, q)

/-! ## `enqueue` -/

/-- The file name `snprintf(fn, PQ_MAX_FILENAME_SIZE, "%s/%010d-%02d", m_prefix, name, i)`
leaves in `fn`: at most `PQ_MAX_FILENAME_SIZE - 1` characters are stored. -/
def fileName (pfx : Str) (name i : Nat) : Str :=
  (pfx ++ '/' :: (fmt010d name ++ '-' :: fmt02d i)).take (PQ_MAX_FILENAME_SIZE - 1)

/-- The bytes `enqueue` hands to its `write` calls: the magic number, the message, and the
CRC if requested. -/
def fileBody (q : PersistentQueue) (data : List Byte) (len : Nat) : List Byte :=
  le32 q.m_magic ++ data.take len ++
    (if q.m_calcCRC then le32 (pq_crc32_default (data.take len)) else [])

/-- The loop `for (uint8_t i = 0; i < PQ_MAX_SUBFILENAMES; i++)` of `enqueue` and the two
statements after it, with `todo = PQ_MAX_SUBFILENAMES - i` iterations left. -/
def enqueueLoop (q : PersistentQueue) (fs : FS) (name : Nat) (data : List Byte) (len : Nat) :
    Nat → Nat → Bool × PersistentQueue × FS
  | 0, _ => (false, { q with m_lastError := PQ_ERROR_OUT_OF_SUBNUMBERS }, fs)
  | todo + 1, i =>
    if !fsExists fs q.m_prefix (fileName q.m_prefix name i) then
      match fsCreate fs q.m_prefix (fileName q.m_prefix name i) (fileBody q data len) with
      | none => (false, { q with m_lastError := PQ_ERROR_FILE_OP }, fs)
      | some fs1 => (true, { q with m_lastError := PQ_ERROR_OK }, fs1)
    else enqueueLoop q fs name data len todo (i + 1)

/-- `enqueue(name, data, len)`: the returned flag, the object and the filesystem
afterwards. -/
def enqueue (q : PersistentQueue) (fs : FS) (name : Nat) (data : List Byte) (len : Nat) :
    Bool × PersistentQueue × FS :=
  if !(checkInitialized q).1 then (false, (checkInitialized q).2, fs)
  else if u32 name = 0 then
    enqueueLoop { q with m_counter := u32 (q.m_counter + 1) } fs q.m_counter data len
      PQ_MAX_SUBFILENAMES 0
  else enqueueLoop q fs (u32 name) data len PQ_MAX_SUBFILENAMES 0

/-! ## `isQueueEmpty` -/

/-- The loop `while (file)` of `isQueueEmpty` over the children still to be enumerated, and
the `return true` after it. -/
def isQueueEmptyLoop (magic : Nat) (fast_check : Bool) : List Entry → Bool
  | [] => true
  | e :: rest =>
    if fast_check then false
    else if rd32 e.content = magic then false
    else isQueueEmptyLoop magic fast_check rest

/-- `isQueueEmpty(fast_check)`. -/
def isQueueEmpty (q : PersistentQueue) (fs : FS) (fast_check : Bool) :
    Bool × PersistentQueue :=
  if !(checkInitialized q).1 then (false, (checkInitialized q).2)
  else if !fs.isDirectory then (false, { q with m_lastError := PQ_ERROR_INVALID_PREFIX })
  else (isQueueEmptyLoop q.m_magic fast_check fs.entries,
        { q with m_lastError := PQ_ERROR_OK })

/-! ## `findNextMessage` -/

/-- Local state of the scan: `soughtNumber`, `soughtFileName` and the member
`m_current_max`. -/
structure Scan where
  soughtNumber : Nat
  soughtFileName : Str
  m_current_max : Nat
deriving DecidableEq, Repr

/-- The loop `while (file)` of `findNextMessage` over the children still to be enumerated.

In the branch `mn != m_magic` the source closes the handle and executes `continue` without
fetching the next child; the loop condition then tests the closed handle, which is false
(`File::operator bool` of a closed `File`), so the scan stops there. -/
def findLoop (pfx : Str) (magic : Nat) (fast_check : Bool) (ord : pqDequeueOrder_t) :
    List Entry → Scan → Scan
  | [], st => st
  | e :: rest, st =>
    if e.isDir then findLoop pfx magic fast_check ord rest st
    else if !fast_check && rd32 e.content != magic then st
    else
      let fn := substring e.name (pfx.length + 1) (pfx.length + 1 + 10)
      let fileNumber := u32OfInt (toInt fn)
      if fileNumber = 0 && fn != ['0'] then findLoop pfx magic fast_check ord rest st
      else
        match ord with
        | PQ_DEQUEUE_OLDEST =>
          if fileNumber < st.soughtNumber then
            findLoop pfx magic fast_check ord rest
              { st with soughtNumber := fileNumber, soughtFileName := e.name }
          else findLoop pfx magic fast_check ord rest st
        | PQ_DEQUEUE_LATEST =>
          if fileNumber > st.soughtNumber then
            findLoop pfx magic fast_check ord rest
              { soughtNumber := fileNumber, m_current_max := fileNumber,
                soughtFileName := e.name }
          else findLoop pfx magic fast_check ord rest st
        | PQ_DEQUEUE_DEFAULT => findLoop pfx magic fast_check ord rest st

/-- `findNextMessage(fast_check, order)`: the returned name and the object afterwards. -/
def findNextMessage (q : PersistentQueue) (fs : FS) (fast_check : Bool)
    (order : pqDequeueOrder_t) : Str × PersistentQueue :=
  if !(checkInitialized q).1 then ([], (checkInitialized q).2)
  else
    let ord := if order = PQ_DEQUEUE_DEFAULT then q.m_order else order
    if !fs.isDirectory then ([], { q with m_lastError := PQ_ERROR_INVALID_PREFIX })
    else
      let st := findLoop q.m_prefix q.m_magic fast_check ord fs.entries
        { soughtNumber := if ord = PQ_DEQUEUE_OLDEST then UINT32_MAX else 1,
          soughtFileName := [], m_current_max := q.m_current_max }
      (st.soughtFileName, { q with m_current_max := st.m_current_max })

/-! ## `dequeue` -/

/-- Outcome of the buffer variant of `dequeue`: the returned flag, the object and the
filesystem afterwards, the buffer of the caller (`none` for a null pointer) and the value of
`*actual_len`. -/
structure DequeueResult where
  ret : Bool
  q : PersistentQueue
  fs : FS
  data : Option (List Byte)
  actual_len : Nat
deriving DecidableEq, Repr

/-- The path `fp` both `dequeue` variants compute from the selected name `fn`. -/
def fullPath (q : PersistentQueue) (fn : Str) : Str :=
  if !startsWith fn ['/'] then q.m_prefix ++ '/' :: fn else fn

/-- The part of the buffer variant of `dequeue` after `PQ_FS.open(fp, "r")` returned a
handle (from `size_t expected_min_len` to the end); `F` is the content of the file `fp`. -/
def dequeueOpened (q1 : PersistentQueue) (fs : FS) (fp : Str) (F : List Byte)
    (data : Option (List Byte)) (len : Nat) (actual_len : Nat) : DequeueResult :=
  let expected_min_len := if q1.m_calcCRC then 4 + 4 else 4
  if F.length < expected_min_len then
    ⟨false, { q1 with m_lastError := PQ_ERROR_FILE_OP }, fs, data, actual_len⟩
  else
    let fsz := F.length - expected_min_len
    if rd32 F != q1.m_magic then
      ⟨false, { q1 with m_lastError := PQ_ERROR_INVALID_MAGIC }, fs, data, actual_len⟩
    else if len < fsz then
      ⟨false, { q1 with m_lastError := PQ_ERROR_SMALL_BUFFER }, fs, data, fsz⟩
    else
      match data with
      | none => ⟨false, { q1 with m_lastError := PQ_ERROR_NULL_POINTER }, fs, none, fsz⟩
      | some _ =>
        let got := (F.drop 4).take fsz
        let buf := got ++ List.replicate (len - got.length) 0
        if got.length != fsz then
          ⟨false, { q1 with m_lastError := PQ_ERROR_FILE_OP }, fs, some buf, fsz⟩
        else if q1.m_calcCRC &&
            ((((F.drop 4).drop fsz).take 4).length != 4 ||
              rd32 ((F.drop 4).drop fsz) != pq_crc32_default (buf.take fsz)) then
          ⟨false, { q1 with m_lastError := PQ_ERROR_BAD_CRC }, fs, some buf, fsz⟩
        else
          ⟨true, { q1 with m_lastError := PQ_ERROR_OK },
            (fsRemove fs q1.m_prefix fp).2, some buf, fsz⟩

/-- `dequeue(data, len, actual_len, fast_check)`.  `data` is the content of the buffer
of the caller, `len` bytes long (`none` for `NULL`), `actual_len` the value `*actual_len` holds
before the call. -/
def dequeue (q : PersistentQueue) (fs : FS) (data : Option (List Byte)) (len : Nat)
    (actual_len : Nat) (fast_check : Bool) : DequeueResult :=
  if !(checkInitialized q).1 then ⟨false, (checkInitialized q).2, fs, data, actual_len⟩
  else
    let e := isQueueEmpty q fs true
    if e.1 then ⟨false, { e.2 with m_lastError := PQ_ERROR_QUEUE_EMPTY }, fs, data, actual_len⟩
    else
      let f := findNextMessage e.2 fs fast_check PQ_DEQUEUE_DEFAULT
      if f.1.length = 0 then
        ⟨false, { f.2 with m_lastError := PQ_ERROR_QUEUE_EMPTY }, fs, data, actual_len⟩
      else
        match fsOpenRead fs (PersistentQueue.m_prefix f.2) (fullPath f.2 f.1) with
        | none => ⟨false, { f.2 with m_lastError := PQ_ERROR_FILE_OP }, fs, data, actual_len⟩
        | some F => dequeueOpened f.2 fs (fullPath f.2 f.1) F data len actual_len

/-- Outcome of the allocating variant of `dequeue`: the returned flag, the object and the
filesystem afterwards, and the values of `*data` (the bytes of the block it points to,
`none` for a pointer that holds no block) and `*len`. -/
structure DequeueAllocResult where
  ret : Bool
  q : PersistentQueue
  fs : FS
  data : Option (List Byte)
  len : Nat
deriving DecidableEq, Repr

/-- The part of the allocating variant of `dequeue` after `PQ_FS.open(fp, "r")` returned a
handle; `F` is the content of the file `fp`, `mallocOk` tells whether `malloc(fsz)`
returns a block. -/
def dequeueAllocOpened (q1 : PersistentQueue) (fs : FS) (fp : Str) (F : List Byte)
    (data : Option (List Byte)) (len : Nat) (mallocOk : Bool) : DequeueAllocResult :=
  let expected_min_len := if q1.m_calcCRC then 4 + 4 else 4
  if F.length < expected_min_len then
    ⟨false, { q1 with m_lastError := PQ_ERROR_FILE_OP }, fs, data, len⟩
  else
    let fsz := F.length - expected_min_len
    if rd32 F != q1.m_magic then
      ⟨false, { q1 with m_lastError := PQ_ERROR_INVALID_MAGIC }, fs, data, len⟩
    else if !mallocOk then
      ⟨false, { q1 with m_lastError := PQ_ERROR_OUT_OF_MEMORY }, fs, data, len⟩
    else
      let p := (F.drop 4).take fsz
      if p.length != fsz then
        ⟨false, { q1 with m_lastError := PQ_ERROR_FILE_OP }, fs, data, len⟩
      else if q1.m_calcCRC &&
          ((((F.drop 4).drop fsz).take 4).length != 4 ||
            rd32 ((F.drop 4).drop fsz) != pq_crc32_default p) then
        ⟨false, { q1 with m_lastError := PQ_ERROR_BAD_CRC }, fs, data, len⟩
      else
        ⟨true, { q1 with m_lastError := PQ_ERROR_OK },
          (fsRemove fs q1.m_prefix fp).2, some p, fsz⟩

/-- `dequeue(data, len, fast_check)` with `uint8_t** data`.  `data` and `len` are the values
of `*data` and `*len` before the call. -/
def dequeueAlloc (q : PersistentQueue) (fs : FS) (data : Option (List Byte)) (len : Nat)
    (fast_check : Bool) (mallocOk : Bool) : DequeueAllocResult :=
  if !(checkInitialized q).1 then ⟨false, (checkInitialized q).2, fs, data, len⟩
  else
    let e := isQueueEmpty q fs true
    if e.1 then ⟨false, { e.2 with m_lastError := PQ_ERROR_QUEUE_EMPTY }, fs, data, len⟩
    else
      let f := findNextMessage e.2 fs fast_check PQ_DEQUEUE_DEFAULT
      if f.1.length = 0 then
        ⟨false, { f.2 with m_lastError := PQ_ERROR_QUEUE_EMPTY }, fs, data, len⟩
      else
        match fsOpenRead fs (PersistentQueue.m_prefix f.2) (fullPath f.2 f.1) with
        | none => ⟨false, { f.2 with m_lastError := PQ_ERROR_FILE_OP }, fs, data, len⟩
        | some F => dequeueAllocOpened f.2 fs (fullPath f.2 f.1) F data len mallocOk

/-! ## `purge` -/

/-- Local state of `purge`: the filesystem, `result` and `m_lastError`. -/
structure PurgeState where
  fs : FS
  result : Bool
  m_lastError : pqError_t
deriving DecidableEq, Repr

/-- The loop `while (file)` of `purge` over the children still to be enumerated.  As in
`findNextMessage`, the branch `mn != m_magic` closes the handle and continues without
fetching the next child, which ends the loop. -/
def purgeLoop (pfx : Str) (magic : Nat) (fast_check : Bool) :
    List Entry → PurgeState → PurgeState
  | [], st => st
  | e :: rest, st =>
    if e.isDir then purgeLoop pfx magic fast_check rest st
    else if !fast_check && rd32 e.content != magic then st
    else
      let fileName := if !startsWith e.name ['/'] then pfx ++ '/' :: e.name else e.name
      let r := fsRemove st.fs pfx fileName
      if !r.1 then
        purgeLoop pfx magic fast_check rest
          { fs := r.2, result := false, m_lastError := PQ_ERROR_FILE_OP }
      else purgeLoop pfx magic fast_check rest { st with fs := r.2 }

/-- `purge(fast_check)`: the returned flag, the object and the filesystem afterwards. -/
def purge (q : PersistentQueue) (fs : FS) (fast_check : Bool) :
    Bool × PersistentQueue × FS :=
  if !(checkInitialized q).1 then (false, (checkInitialized q).2, fs)
  else if !fs.isDirectory then (false, { q with m_lastError := PQ_ERROR_INVALID_PREFIX }, fs)
  else
    let st := purgeLoop q.m_prefix q.m_magic fast_check fs.entries
      { fs := fs, result := true, m_lastError := PQ_ERROR_OK }
    (st.result, { q with m_lastError := st.m_lastError }, st.fs)

/-! ## `begin` -/

/-- The loop `while (m_prefix.endsWith("/")) m_prefix.remove(m_prefix.length() - 1)`. -/
def stripTrailingSlashes (s : Str) : Str :=
  (s.reverse.dropWhile (fun c => c == '/')).reverse

/-- The first three statements of `begin`: the value of `m_prefix` they leave. -/
def normalizePrefix (p : Str) : Str :=
  stripTrailingSlashes (if p.length > 0 && !startsWith p ['/'] then '/' :: p else p)

/-- `begin(prefix)` in the default (`PQ_USES_SPIFFS`) configuration: the returned flag and
the object afterwards. -/
def begin (q : PersistentQueue) (fs : FS) (pfx : Str) : Bool × PersistentQueue :=
  let q1 := { q with m_prefix := normalizePrefix pfx, m_initialized := true }
  let e := isQueueEmpty q1 fs false
  if !e.1 then
    let f := findNextMessage e.2 fs false PQ_DEQUEUE_LATEST
    (true, { f.2 with m_counter := u32 (f.2.m_current_max + 1), m_lastError := PQ_ERROR_OK })
  else (true, { e.2 with m_lastError := PQ_ERROR_OK })

/-! ## Auxiliary definitions for the statements -/

/-- The members that no operation other than the constructor and `begin` assigns:
`q2` has the prefix, magic number, CRC flag, order and initialisation flag of `q`. -/
def sameConfig (q q2 : PersistentQueue) : Prop :=
  q2.m_prefix = q.m_prefix ∧ q2.m_magic = q.m_magic ∧ q2.m_calcCRC = q.m_calcCRC ∧
    q2.m_order = q.m_order ∧ q2.m_initialized = q.m_initialized

/-- An existing, empty queue directory on a filesystem that refuses no operation and whose
`file.name()` returns full paths. -/
def emptyDir : FS :=
  { isDirectory := true, entries := [], pathNames := true, elsewhere := [],
    denyCreate := [], denyOpen := [], denyRemove := [], unwritten := [] }

/-- A newly constructed object after `begin("/q")` over `emptyDir`; its unassigned member
`m_current_max` holds `0`. -/
def freshQueue (magic_num : Nat) (dq_order : pqDequeueOrder_t) (calculate_crc : Bool) :
    PersistentQueue :=
  (begin (construct magic_num dq_order calculate_crc 0) emptyDir ['/', 'q']).2

/-- The outcome of the `k`-th of `k` consecutive calls `enqueue(name, P j, |P j|)`,
`j = 0, .., k - 1`, starting from the object `q` and the filesystem `fs` (for `k = 0`: no
call, the initial state). -/
def enqueueMany (q : PersistentQueue) (fs : FS) (name : Nat) (P : Nat → List Byte) :
    Nat → Bool × PersistentQueue × FS
  | 0 => (true, q, fs)
  | k + 1 =>
    enqueue (enqueueMany q fs name P k).2.1 (enqueueMany q fs name P k).2.2 name (P k)
      (P k).length

/-! ## Concrete states used in the statements -/

/-- A fresh `PQ_DEQUEUE_LATEST` queue after one auto-numbered `enqueue(0, {1,2,3}, 3)`. -/
def latestFirst : Bool × PersistentQueue × FS :=
  enqueue (freshQueue PQ_DEFAULT_MN PQ_DEQUEUE_LATEST true) emptyDir 0 [1, 2, 3] 3

/-- A fresh `PQ_DEQUEUE_OLDEST` queue after `enqueue(4294967295, {7}, 1)`. -/
def oldestMax : Bool × PersistentQueue × FS :=
  enqueue (freshQueue PQ_DEFAULT_MN PQ_DEQUEUE_OLDEST true) emptyDir 4294967295 [7] 1

/-- A fresh `PQ_DEQUEUE_OLDEST` queue after `enqueue(3000000000, {30}, 1)` and
`enqueue(4000000000, {40}, 1)`. -/
def oldestLarge : Bool × PersistentQueue × FS :=
  enqueue
    (enqueue (freshQueue PQ_DEFAULT_MN PQ_DEQUEUE_OLDEST true) emptyDir 3000000000 [30] 1).2.1
    (enqueue (freshQueue PQ_DEFAULT_MN PQ_DEQUEUE_OLDEST true) emptyDir 3000000000 [30] 1).2.2
    4000000000 [40] 1

/-- Three calls `enqueue(5, {50}, 1)`, `enqueue(1, {10}, 1)`, `enqueue(3, {30}, 1)` on a
fresh queue of the given order. -/
def enqueue513 (dq_order : pqDequeueOrder_t) : Bool × PersistentQueue × FS :=
  let r1 := enqueue (freshQueue PQ_DEFAULT_MN dq_order true) emptyDir 5 [50] 1
  let r2 := enqueue r1.2.1 r1.2.2 1 [10] 1
  enqueue r2.2.1 r2.2.2 3 [30] 1

/-- The first of three successive calls `dequeue(buf, 1, &n)` after `enqueue513`. -/
def dequeue513a (dq_order : pqDequeueOrder_t) : DequeueResult :=
  dequeue (enqueue513 dq_order).2.1 (enqueue513 dq_order).2.2 (some [0]) 1 0 true

/-- The second of the three calls. -/
def dequeue513b (dq_order : pqDequeueOrder_t) : DequeueResult :=
  dequeue (dequeue513a dq_order).q (dequeue513a dq_order).fs (some [0]) 1 0 true

/-- The third of the three calls. -/
def dequeue513c (dq_order : pqDequeueOrder_t) : DequeueResult :=
  dequeue (dequeue513b dq_order).q (dequeue513b dq_order).fs (some [0]) 1 0 true

/-- The directory left by one auto-numbered `enqueue(0, {50}, 1)` on a fresh queue with
magic number `7`. -/
def oneAutoEnqueue : FS :=
  (enqueue (freshQueue 7 PQ_DEQUEUE_OLDEST true) emptyDir 0 [50] 1).2.2

/-- A new object with the same magic number after `begin("/q")` over `oneAutoEnqueue`, its
unassigned member `m_current_max` holding `u`. -/
def restarted (u : Nat) : PersistentQueue :=
  (begin (construct 7 PQ_DEQUEUE_OLDEST true u) oneAutoEnqueue ['/', 'q']).2

/-- A regular file of the directory `/q` with the given name, magic number and payload,
stored without CRC. -/
def taggedFile (name : String) (magic : Nat) (payload : List Byte) : Entry :=
  { name := name.toList, isDir := false, content := le32 magic ++ payload }

/-- A directory `/q` shared by two queues: a file of the queue with magic number
`0x0B0B0B0B` is enumerated before a file of the queue with magic number `PQ_DEFAULT_MN`. -/
def sharedDir : FS :=
  { emptyDir with entries :=
      [taggedFile "/q/0000000001-00" 0x0B0B0B0B [11],
       taggedFile "/q/0000000002-00" PQ_DEFAULT_MN [22]] }

/-- The directory `sharedDir` without the file of the other queue. -/
def ownDir : FS :=
  { emptyDir with entries := [taggedFile "/q/0000000002-00" PQ_DEFAULT_MN [22]] }

/-- An initialised queue with magic number `PQ_DEFAULT_MN`, no CRC, on the directory `/q`. -/
def sharedQueue : PersistentQueue :=
  (begin (construct PQ_DEFAULT_MN PQ_DEQUEUE_OLDEST false 0) sharedDir ['/', 'q']).2

/-- A queue directory holding one message `{1,2,3}` numbered 5, written with CRC. -/
def oneMessage : Bool × PersistentQueue × FS :=
  enqueue (freshQueue PQ_DEFAULT_MN PQ_DEQUEUE_OLDEST true) emptyDir 5 [1, 2, 3] 3

/-- The directory of `oneMessage` with payload byte 1 of the stored file replaced by `9`. -/
def oneMessageCorrupted : FS :=
  { emptyDir with entries :=
      [{ name := "/q/0000000005-00".toList, isDir := false,
         content := (fileBody oneMessage.2.1 [1, 2, 3] 3).set (4 + 1) 9 }] }

/-! ## Reference definitions and further states -/

/-! ### The checksum, bit by bit

The reflected CRC-32 with the polynomial `0xEDB88320`, one bit at a time: the reference
the table-driven `pq_crc32` is compared with. -/

/-- The reflected CRC-32 polynomial. -/
def CRC32_POLY : Nat := 0xEDB88320

/-- One bit of the bit-at-a-time reflected CRC: the register is shifted right by one and,
when the bit shifted out (the least significant one) was 1, xor-ed with the polynomial. -/
def crcBitStep (crc : Nat) : Nat :=
  if crc &&& 1 = 1 then (crc >>> 1) ^^^ CRC32_POLY else crc >>> 1

/-- One input byte of the bit-at-a-time CRC: the byte is xor-ed into the low end of the
register, then eight bit steps follow. -/
def crcByteBitwise (crc : Nat) (b : Byte) : Nat :=
  crcBitStep (crcBitStep (crcBitStep (crcBitStep (crcBitStep (crcBitStep (crcBitStep
    (crcBitStep (crc ^^^ b.val))))))))

/-- The register of the bit-at-a-time reflected CRC-32 after the bytes `data`, started at
`crc`, with no final inversion. -/
def crcRegisterBitwise (data : List Byte) (crc : Nat) : Nat := data.foldl crcByteBitwise crc

/-- The standard CRC-32 of `data`: register started at `0xFFFFFFFF`, result inverted. -/
def crc32Standard (data : List Byte) : Nat :=
  crcRegisterBitwise data 0xFFFFFFFF ^^^ 0xFFFFFFFF

/-- The ASCII bytes of "123456789". -/
def checkBytes : List Byte := [49, 50, 51, 52, 53, 54, 55, 56, 57]

/-! ### File names and the scan -/

/-- The file name as the format `<prefix>/<sequence:010d>-<subindex:02d>` is meant: the
prefix, a slash, the ten decimal digits of `s`, a dash, the two decimal digits of `i`. -/
def expectedFileName (pfx : Str) (s i : Nat) : Str :=
  pfx ++ '/' :: (fixedDigits 10 s ++ '-' :: fixedDigits 2 i)

/-- A normalised prefix of 17 characters. -/
def seventeenChars : Str := "/aaaaaaaaaaaaaaaa".toList

/-- The local `fn` of `findNextMessage` for a child:
`fileName.substring(prefixLen, prefixLen + 10)` of what `file.name()` returns, with
`prefixLen = m_prefix.length() + 1`, whatever the naming convention of `file.name()`. -/
def scanFn (pfx : Str) (e : Entry) : Str :=
  substring e.name (pfx.length + 1) (pfx.length + 1 + 10)

/-- The local `fileNumber` of `findNextMessage` for a child: `fn.toInt()` as `uint32_t`. -/
def scanFileNumber (pfx : Str) (e : Entry) : Nat := u32OfInt (toInt (scanFn pfx e))

/-- The children a fast scan of `findNextMessage` compares: those that are not skipped as
a directory or by the test `fileNumber == 0 && fn != "0"`. -/
def scanAccepts (pfx : Str) (e : Entry) : Bool :=
  !e.isDir && !(scanFileNumber pfx e = 0 && scanFn pfx e != ['0'])

/-- The name of a child relative to the queue directory, `<sequence>-<subindex>` for a
message file: what follows the prefix and the slash in a full path, the whole name when
`file.name()` returns bare names. -/
def baseName (fs : FS) (pfx : Str) (e : Entry) : Str :=
  if fs.pathNames then e.name.drop (pfx.length + 1) else e.name

/-- The 10-character sequence field of a child: the first ten characters of its name
relative to the directory. -/
def sequenceField (fs : FS) (pfx : Str) (e : Entry) : Str := (baseName fs pfx e).take 10

/-- The sequence number a child carries: its sequence field decoded as a decimal number,
as a `uint32_t`. -/
def sequenceNumber (fs : FS) (pfx : Str) (e : Entry) : Nat :=
  u32OfInt (toInt (sequenceField fs pfx e))

/-- The children a selection is to consider: regular files whose sequence field decodes to
a number (a non-zero number, or zero written as the text `0`). -/
def hasSequenceNumber (fs : FS) (pfx : Str) (e : Entry) : Bool :=
  !e.isDir && !(sequenceNumber fs pfx e = 0 && sequenceField fs pfx e != ['0'])

/-! ### Further concrete states -/

/-- The directory of `oneMessage` on a filesystem that refuses to remove the stored file. -/
def oneMessageLocked : FS :=
  { oneMessage.2.2 with denyRemove := ["/q/0000000005-00".toList] }

/-- A fresh `PQ_DEQUEUE_LATEST` queue after three auto-numbered calls `enqueue(0, {1}, 1)`
and one `dequeue`, which takes the message numbered 3. -/
def afterThreeAndOne : DequeueResult :=
  dequeue (enqueueMany (freshQueue PQ_DEFAULT_MN PQ_DEQUEUE_LATEST true) emptyDir 0
      (fun _ => [1]) 3).2.1
    (enqueueMany (freshQueue PQ_DEFAULT_MN PQ_DEQUEUE_LATEST true) emptyDir 0
      (fun _ => [1]) 3).2.2 (some [0]) 1 0 true

/-- An empty queue directory on a medium that stores only the first six bytes written to
the file `/q/0000000005-00`: of the eleven bytes of a three-byte message with CRC, the
second `write` stores two bytes of three and the third none of four. -/
def shortWriteDir : FS :=
  { emptyDir with unwritten := [("/q/0000000005-00".toList, [6, 7, 8, 9, 10])] }

/-- An existing, empty queue directory on a filesystem whose `file.name()` returns bare
names (IDF 4.x and above). -/
def bareNamesDir : FS := { emptyDir with pathNames := false }

/-- A new `PQ_DEQUEUE_OLDEST` queue after `begin("/q")` over `bareNamesDir`,
`enqueue(10000001, {10}, 1)` and `enqueue(5, {50}, 1)`. -/
def bareNamesTwo : Bool × PersistentQueue × FS :=
  let q0 := (begin (construct PQ_DEFAULT_MN PQ_DEQUEUE_OLDEST true 0) bareNamesDir ['/', 'q']).2
  let r1 := enqueue q0 bareNamesDir 10000001 [10] 1
  enqueue r1.2.1 r1.2.2 5 [50] 1

/-- A directory whose only child is an empty regular file. -/
def emptyFileDir : FS :=
  { emptyDir with entries := [{ name := "/q/notes".toList, isDir := false, content := [] }] }

/-- An initialised queue with magic number `0` on the directory `/q`. -/
def zeroMagicQueue : PersistentQueue :=
  (begin (construct 0 PQ_DEQUEUE_OLDEST true 0) emptyDir ['/', 'q']).2

/-! ## The checksum register -/

theorem crcNibble_eq (x : Nat) : crcNibble x = tabAt (x % 16) ^^^ (x / 16) := by
  unfold crcNibble
  have h1 : x &&& 0x0f = x % 16 := Nat.and_pow_two_sub_one_eq_mod x 4
  have h2 : x >>> 4 = x / 16 := Nat.shiftRight_eq_div_pow x 4
  rw [h1, h2]

theorem tabAt_lt (i : Nat) : tabAt i < 4294967296 := by
  unfold tabAt pq_crc32tab
  rcases Nat.lt_or_ge i 16 with h | h
  · interval_cases i <;> decide
  · rw [List.getD_eq_default _ _ (by simpa using h)]; decide

theorem tabAt_xor_ge : ∀ i < 16, ∀ j < 16, i ≠ j → 268435456 ≤ tabAt i ^^^ tabAt j := by
  decide

theorem crcNibble_lt {x : Nat} (h : x < 4294967296) : crcNibble x < 4294967296 := by
  rw [crcNibble_eq]
  have h1 : tabAt (x % 16) < 2 ^ 32 := tabAt_lt _
  have h2 : x / 16 < 2 ^ 32 := by norm_num; omega
  exact Nat.xor_lt_two_pow h1 h2

theorem crcNibble_inj {x y : Nat} (hx : x < 4294967296) (hy : y < 4294967296)
    (h : crcNibble x = crcNibble y) : x = y := by
  rw [crcNibble_eq, crcNibble_eq] at h
  have hx4 : x / 16 < 2 ^ 28 := by norm_num; omega
  have hy4 : y / 16 < 2 ^ 28 := by norm_num; omega
  have hxy : tabAt (x % 16) ^^^ tabAt (y % 16) = x / 16 ^^^ y / 16 := by
    have e : y / 16 = tabAt (y % 16) ^^^ (tabAt (x % 16) ^^^ x / 16) := by
      rw [h, Nat.xor_cancel_left]
    rw [e, Nat.xor_comm (tabAt (x % 16)) (x / 16), ← Nat.xor_assoc (tabAt (y % 16)),
      Nat.xor_comm (tabAt (y % 16)) (x / 16), Nat.xor_assoc (x / 16), Nat.xor_cancel_left,
      Nat.xor_comm]
  have hlt : tabAt (x % 16) ^^^ tabAt (y % 16) < 2 ^ 28 := by
    rw [hxy]; exact Nat.xor_lt_two_pow hx4 hy4
  have hmod : x % 16 = y % 16 := by
    by_contra hne
    have := tabAt_xor_ge (x % 16) (Nat.mod_lt _ (by norm_num)) (y % 16)
      (Nat.mod_lt _ (by norm_num)) hne
    norm_num at hlt
    omega
  rw [hmod] at h
  have hdiv : x / 16 = y / 16 := Nat.xor_right_inj.mp h
  omega


theorem crcByte_lt {c : Nat} (b : Byte) (h : c < 4294967296) : crcByte c b < 4294967296 := by
  unfold crcByte
  apply crcNibble_lt; apply crcNibble_lt
  have hb : b.val < 2 ^ 32 := lt_trans b.isLt (by norm_num)
  exact Nat.xor_lt_two_pow (n := 32) h hb

theorem xor_byte_lt {c : Nat} (b : Byte) (h : c < 4294967296) : c ^^^ b.val < 4294967296 := by
  have hb : b.val < 2 ^ 32 := lt_trans b.isLt (by norm_num)
  exact Nat.xor_lt_two_pow (n := 32) h hb

theorem crcByte_inj_state {c d : Nat} (b : Byte) (hc : c < 4294967296) (hd : d < 4294967296)
    (h : crcByte c b = crcByte d b) : c = d := by
  unfold crcByte at h
  have h1 := crcNibble_inj (crcNibble_lt (xor_byte_lt b hc)) (crcNibble_lt (xor_byte_lt b hd)) h
  have h2 := crcNibble_inj (xor_byte_lt b hc) (xor_byte_lt b hd) h1
  exact Nat.xor_left_inj.mp h2

theorem crcByte_inj_byte {c : Nat} (a b : Byte) (hc : c < 4294967296)
    (h : crcByte c a = crcByte c b) : a = b := by
  unfold crcByte at h
  have h1 := crcNibble_inj (crcNibble_lt (xor_byte_lt a hc)) (crcNibble_lt (xor_byte_lt b hc)) h
  have h2 := crcNibble_inj (xor_byte_lt a hc) (xor_byte_lt b hc) h1
  exact Fin.ext (Nat.xor_right_inj.mp h2)

theorem pq_crc32_lt (data : List Byte) {c : Nat} (h : c < 4294967296) :
    pq_crc32 data c < 4294967296 := by
  induction data generalizing c with
  | nil => simpa [pq_crc32] using h
  | cons b t ih => exact ih (crcByte_lt b h)

theorem pq_crc32_default_lt (data : List Byte) : pq_crc32_default data < 4294967296 :=
  pq_crc32_lt data (by norm_num)

theorem pq_crc32_append (xs ys : List Byte) (c : Nat) :
    pq_crc32 (xs ++ ys) c = pq_crc32 ys (pq_crc32 xs c) := by
  simp [pq_crc32, List.foldl_append]

theorem pq_crc32_inj_state (data : List Byte) {c d : Nat} (hc : c < 4294967296)
    (hd : d < 4294967296) (h : pq_crc32 data c = pq_crc32 data d) : c = d := by
  induction data generalizing c d with
  | nil => simpa [pq_crc32] using h
  | cons b t ih => exact crcByte_inj_state b hc hd (ih (crcByte_lt b hc) (crcByte_lt b hd) h)

theorem pq_crc32_mid_ne (pre suf : List Byte) (a b : Byte) (hab : a ≠ b) {c : Nat}
    (hc : c < 4294967296) :
    pq_crc32 (pre ++ a :: suf) c ≠ pq_crc32 (pre ++ b :: suf) c := by
  intro h
  rw [pq_crc32_append, pq_crc32_append] at h
  have hs : pq_crc32 pre c < 4294967296 := pq_crc32_lt pre hc
  have h1 : crcByte (pq_crc32 pre c) a = crcByte (pq_crc32 pre c) b :=
    pq_crc32_inj_state suf (crcByte_lt a hs) (crcByte_lt b hs) h
  exact hab (crcByte_inj_byte a b hs h1)

theorem pq_crc32_set_ne (P : List Byte) (i : Nat) (hi : i < P.length) (b : Byte)
    (hb : b ≠ P[i]) {c : Nat} (hc : c < 4294967296) :
    pq_crc32 (P.set i b) c ≠ pq_crc32 P c := by
  have hP : P.take i ++ P[i] :: P.drop (i + 1) = P := by
    rw [← List.drop_eq_getElem_cons hi, List.take_append_drop]
  have hS : P.set i b = P.take i ++ b :: P.drop (i + 1) := by
    rw [List.set_eq_take_append_cons_drop, if_pos hi]
  have h := pq_crc32_mid_ne (P.take i) (P.drop (i + 1)) b P[i] hb hc
  rw [← hS, hP] at h
  exact h

/-! ## Reading and writing 32-bit words; selection -/

theorem le32_length (n : Nat) : (le32 n).length = 4 := rfl

theorem rd32_le32_append (n : Nat) (h : n < 4294967296) (rest : List Byte) :
    rd32 (le32 n ++ rest) = n := by
  simp [rd32, le32, Fin.ofNat]
  omega

theorem rd32_le32 (n : Nat) (h : n < 4294967296) : rd32 (le32 n) = n := by
  have := rd32_le32_append n h []
  simpa using this

/-! ### Selection does not depend on the error code or the watermark -/

theorem findLoop_indep (pfx : Str) (magic : Nat) (fc : Bool) (ord : pqDequeueOrder_t)
    (es : List Entry) (sn : Nat) (sf : Str) (c1 c2 : Nat) :
    (findLoop pfx magic fc ord es ⟨sn, sf, c1⟩).soughtFileName =
      (findLoop pfx magic fc ord es ⟨sn, sf, c2⟩).soughtFileName ∧
    (findLoop pfx magic fc ord es ⟨sn, sf, c1⟩).soughtNumber =
      (findLoop pfx magic fc ord es ⟨sn, sf, c2⟩).soughtNumber := by
  induction es generalizing sn sf c1 c2 with
  | nil => simp [findLoop]
  | cons e rest ih =>
    simp only [findLoop]
    split
    · exact ih _ _ _ _
    · split
      · simp
      · split
        · exact ih _ _ _ _
        · cases ord with
          | PQ_DEQUEUE_DEFAULT => exact ih _ _ _ _
          | PQ_DEQUEUE_OLDEST =>
            simp only
            split
            · exact ih _ _ _ _
            · exact ih _ _ _ _
          | PQ_DEQUEUE_LATEST =>
            simp only
            split
            · exact ih _ _ _ _
            · exact ih _ _ _ _

theorem findNextMessage_fst_congr (q q2 : PersistentQueue) (h : sameConfig q q2) (fs : FS)
    (fc : Bool) (o : pqDequeueOrder_t) :
    (findNextMessage q2 fs fc o).1 = (findNextMessage q fs fc o).1 := by
  obtain ⟨h1, h2, _, h4, h5⟩ := h
  unfold findNextMessage checkInitialized
  rw [h1, h2, h4, h5]
  cases q.m_initialized <;> cases fs.isDirectory <;> simp
  exact (findLoop_indep _ _ _ _ _ _ _ _ _).1

theorem findNextMessage_sameConfig (q : PersistentQueue) (fs : FS) (fc : Bool)
    (o : pqDequeueOrder_t) : sameConfig q (findNextMessage q fs fc o).2 := by
  unfold findNextMessage checkInitialized sameConfig
  cases q.m_initialized <;> cases fs.isDirectory <;> simp

theorem isQueueEmpty_sameConfig (q : PersistentQueue) (fs : FS) (fc : Bool) :
    sameConfig q (isQueueEmpty q fs fc).2 := by
  unfold isQueueEmpty checkInitialized sameConfig
  cases q.m_initialized <;> cases fs.isDirectory <;> simp

theorem sameConfig_refl (q : PersistentQueue) : sameConfig q q := by simp [sameConfig]

theorem sameConfig_trans {a b c : PersistentQueue} (h1 : sameConfig a b) (h2 : sameConfig b c) :
    sameConfig a c := by
  unfold sameConfig at *
  obtain ⟨a1, a2, a3, a4, a5⟩ := h1
  obtain ⟨b1, b2, b3, b4, b5⟩ := h2
  exact ⟨b1.trans a1, b2.trans a2, b3.trans a3, b4.trans a4, b5.trans a5⟩

theorem sameConfig_setErr (q : PersistentQueue) (e : pqError_t) :
    sameConfig q { q with m_lastError := e } := by simp [sameConfig]

/-! ## From `dequeue` to the opened file -/

theorem findNextMessage_nonempty {q : PersistentQueue} {fs : FS} {fc : Bool}
    {o : pqDequeueOrder_t} (h : (findNextMessage q fs fc o).1 ≠ []) :
    q.m_initialized = true ∧ fs.isDirectory = true ∧ fs.entries ≠ [] := by
  unfold findNextMessage checkInitialized at h
  cases hi : q.m_initialized <;> cases hd : fs.isDirectory <;> simp [hi, hd] at h
  refine ⟨rfl, rfl, ?_⟩
  intro hnil
  rw [hnil] at h
  simp [findLoop] at h

theorem fullPath_congr {q q2 : PersistentQueue} (h : sameConfig q q2) (n : Str) :
    fullPath q2 n = fullPath q n := by
  unfold fullPath
  rw [h.1]

theorem fileBody_congr {q q2 : PersistentQueue} (h : sameConfig q q2) (d : List Byte) (l : Nat) :
    fileBody q2 d l = fileBody q d l := by
  unfold fileBody
  rw [h.2.1, h.2.2.1]

theorem isQueueEmpty_fast_nonempty {q : PersistentQueue} {fs : FS}
    (hi : q.m_initialized = true) (hd : fs.isDirectory = true) (he : fs.entries ≠ []) :
    ∃ q0, isQueueEmpty q fs true = (false, q0) ∧ sameConfig q q0 := by
  refine ⟨{ q with m_lastError := PQ_ERROR_OK }, ?_, sameConfig_setErr q _⟩
  unfold isQueueEmpty checkInitialized
  cases hes : fs.entries with
  | nil => exact absurd hes he
  | cons e rest => simp [hi, hd, isQueueEmptyLoop]

/-- Under the stated selection and open results, the buffer variant of `dequeue` reaches
its post-open part with an object of the same configuration. -/
theorem dequeue_selected {q : PersistentQueue} {fs : FS} {fc : Bool} {n : Str} {F : List Byte}
    (hsel : (findNextMessage q fs fc PQ_DEQUEUE_DEFAULT).1 = n) (hn : n ≠ [])
    (hopen : fsOpenRead fs q.m_prefix (fullPath q n) = some F)
    (data : Option (List Byte)) (len al : Nat) :
    ∃ q1, sameConfig q q1 ∧
      dequeue q fs data len al fc = dequeueOpened q1 fs (fullPath q n) F data len al := by
  obtain ⟨hi, hd, he⟩ := findNextMessage_nonempty (hsel ▸ hn)
  obtain ⟨q0, hE, hc⟩ := isQueueEmpty_fast_nonempty hi hd he
  have hc2 := sameConfig_trans hc (findNextMessage_sameConfig q0 fs fc PQ_DEQUEUE_DEFAULT)
  have hf1 : (findNextMessage q0 fs fc PQ_DEQUEUE_DEFAULT).1 = n := by
    rw [findNextMessage_fst_congr q _ hc, hsel]
  refine ⟨(findNextMessage q0 fs fc PQ_DEQUEUE_DEFAULT).2, hc2, ?_⟩
  have hlen : n.length ≠ 0 := by
    intro h0; exact hn (List.length_eq_zero.mp h0)
  unfold dequeue
  simp only [checkInitialized, hi, hE, hf1, fullPath_congr hc2, hc2.1, hopen]
  simp [hlen]

/-- The allocating variant reaches its post-open part under the same conditions. -/
theorem dequeueAlloc_selected {q : PersistentQueue} {fs : FS} {fc : Bool} {n : Str}
    {F : List Byte}
    (hsel : (findNextMessage q fs fc PQ_DEQUEUE_DEFAULT).1 = n) (hn : n ≠ [])
    (hopen : fsOpenRead fs q.m_prefix (fullPath q n) = some F)
    (data : Option (List Byte)) (len : Nat) (mallocOk : Bool) :
    ∃ q1, sameConfig q q1 ∧
      dequeueAlloc q fs data len fc mallocOk =
        dequeueAllocOpened q1 fs (fullPath q n) F data len mallocOk := by
  obtain ⟨hi, hd, he⟩ := findNextMessage_nonempty (hsel ▸ hn)
  obtain ⟨q0, hE, hc⟩ := isQueueEmpty_fast_nonempty hi hd he
  have hc2 := sameConfig_trans hc (findNextMessage_sameConfig q0 fs fc PQ_DEQUEUE_DEFAULT)
  have hf1 : (findNextMessage q0 fs fc PQ_DEQUEUE_DEFAULT).1 = n := by
    rw [findNextMessage_fst_congr q _ hc, hsel]
  refine ⟨(findNextMessage q0 fs fc PQ_DEQUEUE_DEFAULT).2, hc2, ?_⟩
  have hlen : n.length ≠ 0 := by
    intro h0; exact hn (List.length_eq_zero.mp h0)
  unfold dequeueAlloc
  simp only [checkInitialized, hi, hE, hf1, fullPath_congr hc2, hc2.1, hopen]
  simp [hlen]

/-! ## The opened file -/

theorem body_drop (m : Nat) (P T : List Byte) : (le32 m ++ P ++ T).drop 4 = P ++ T := by
  simp [le32]

theorem body_rd32 (m : Nat) (hm : m < 4294967296) (P T : List Byte) :
    rd32 (le32 m ++ P ++ T) = m := by
  rw [List.append_assoc]; exact rd32_le32_append m hm _

theorem body_length (m : Nat) (P T : List Byte) :
    (le32 m ++ P ++ T).length = 4 + P.length + T.length := by
  simp [le32]; omega

/-- Post-open part of the buffer variant on a file holding the magic number of the object,
a payload `P` and, when CRCs are on, four bytes `le32 c`. -/
theorem dequeueOpened_body (q1 : PersistentQueue) (fs : FS) (fp : Str) (P : List Byte)
    (c : Nat) (hm : q1.m_magic < 4294967296) (hc : c < 4294967296)
    (data : Option (List Byte)) (len al : Nat) :
    dequeueOpened q1 fs fp
        (le32 q1.m_magic ++ P ++ (if q1.m_calcCRC then le32 c else [])) data len al =
      if len < P.length then
        ⟨false, { q1 with m_lastError := PQ_ERROR_SMALL_BUFFER }, fs, data, P.length⟩
      else match data with
        | none => ⟨false, { q1 with m_lastError := PQ_ERROR_NULL_POINTER }, fs, none, P.length⟩
        | some _ =>
          if q1.m_calcCRC && c != pq_crc32_default P then
            ⟨false, { q1 with m_lastError := PQ_ERROR_BAD_CRC }, fs,
              some (P ++ List.replicate (len - P.length) 0), P.length⟩
          else
            ⟨true, { q1 with m_lastError := PQ_ERROR_OK }, (fsRemove fs q1.m_prefix fp).2,
              some (P ++ List.replicate (len - P.length) 0), P.length⟩ := by
  unfold dequeueOpened
  cases hcrc : q1.m_calcCRC
  · simp only [Bool.false_eq_true, if_false, List.append_nil]
    have hb := body_rd32 q1.m_magic hm P []
    have hd := body_drop q1.m_magic P []
    have hl := body_length q1.m_magic P []
    simp only [List.append_nil] at hb hd hl
    simp only [hb, hd, hl, List.length_nil]
    by_cases hlen : len < P.length
    · simp [hlen]
    · cases data with
      | none => simp [hlen]
      | some buf => simp [hlen]
  · simp only [if_true]
    have hb := body_rd32 q1.m_magic hm P (le32 c)
    have hd := body_drop q1.m_magic P (le32 c)
    have hl := body_length q1.m_magic P (le32 c)
    simp only [hb, hd, hl, le32_length]
    by_cases hlen : len < P.length
    · simp [hlen]
    · cases data with
      | none => simp [hlen]
      | some buf => simp [hlen, rd32_le32 c hc, le32_length]

/-- Post-open part of the allocating variant on a file holding the magic number of the
object, a payload `P` and, when CRCs are on, four bytes `le32 c`. -/
theorem dequeueAllocOpened_body (q1 : PersistentQueue) (fs : FS) (fp : Str) (P : List Byte)
    (c : Nat) (hm : q1.m_magic < 4294967296) (hc : c < 4294967296)
    (data : Option (List Byte)) (len : Nat) (mallocOk : Bool) :
    dequeueAllocOpened q1 fs fp
        (le32 q1.m_magic ++ P ++ (if q1.m_calcCRC then le32 c else [])) data len mallocOk =
      if !mallocOk then
        ⟨false, { q1 with m_lastError := PQ_ERROR_OUT_OF_MEMORY }, fs, data, len⟩
      else if q1.m_calcCRC && c != pq_crc32_default P then
        ⟨false, { q1 with m_lastError := PQ_ERROR_BAD_CRC }, fs, data, len⟩
      else
        ⟨true, { q1 with m_lastError := PQ_ERROR_OK }, (fsRemove fs q1.m_prefix fp).2,
          some P, P.length⟩ := by
  unfold dequeueAllocOpened
  cases hcrc : q1.m_calcCRC
  · simp only [Bool.false_eq_true, if_false, List.append_nil]
    have hb := body_rd32 q1.m_magic hm P []
    have hd := body_drop q1.m_magic P []
    have hl := body_length q1.m_magic P []
    simp only [List.append_nil] at hb hd hl
    simp only [hb, hd, hl, List.length_nil]
    cases mallocOk <;> simp
  · simp only [if_true]
    have hb := body_rd32 q1.m_magic hm P (le32 c)
    have hd := body_drop q1.m_magic P (le32 c)
    have hl := body_length q1.m_magic P (le32 c)
    simp only [hb, hd, hl, le32_length]
    cases mallocOk <;> simp [rd32_le32 c hc, le32_length]

/-- Replacing payload byte `i` of a file written by `enqueue` leaves the magic number and
the trailing bytes in place. -/
theorem fileBody_set (q : PersistentQueue) (P : List Byte) (i : Nat) (hi : i < P.length)
    (b : Byte) :
    (fileBody q P P.length).set (4 + i) b =
      le32 q.m_magic ++ P.set i b ++
        (if q.m_calcCRC then le32 (pq_crc32_default P) else []) := by
  unfold fileBody
  rw [List.take_length, List.append_assoc, List.append_assoc, List.set_append]
  simp only [le32_length]
  rw [if_neg (by omega), List.set_append]
  have e : 4 + i - 4 = i := by omega
  rw [e, if_pos hi]

/-! ### File names -/

theorem digitChar_toNat : ∀ d < 10, (digitChar d).toNat = 48 + d := by decide

theorem fmt02d_eq {i : Nat} (h : i < 100) : fmt02d i = [digitChar (i / 10), digitChar i] := by
  simp [fmt02d, h, fixedDigits]

theorem digitChar_mod (d : Nat) : digitChar d = digitChar (d % 10) := by
  simp [digitChar]

theorem digitChar_inj {a b : Nat} (h : digitChar a = digitChar b) : a % 10 = b % 10 := by
  have ha := digitChar_toNat (a % 10) (Nat.mod_lt _ (by norm_num))
  have hb := digitChar_toNat (b % 10) (Nat.mod_lt _ (by norm_num))
  rw [← digitChar_mod] at ha hb
  rw [h] at ha
  omega

theorem fmt02d_inj {i j : Nat} (hi : i < 100) (hj : j < 100) (h : fmt02d i = fmt02d j) :
    i = j := by
  rw [fmt02d_eq hi, fmt02d_eq hj] at h
  simp only [List.cons.injEq, and_true] at h
  have h1 := digitChar_inj h.1
  have h2 := digitChar_inj h.2
  omega

theorem fmt02d_length {i : Nat} (h : i < 100) : (fmt02d i).length = 2 := by
  rw [fmt02d_eq h]; rfl

/-- When the formatted name fits, `snprintf` stores it whole. -/
theorem fileName_fit {pfx : Str} {s i : Nat} (hi : i < 100)
    (hfit : (pfx ++ '/' :: (fmt010d s ++ '-' :: fmt02d 0)).length < PQ_MAX_FILENAME_SIZE) :
    fileName pfx s i = pfx ++ '/' :: (fmt010d s ++ '-' :: fmt02d i) := by
  unfold fileName
  apply List.take_of_length_le
  simp only [List.length_append, List.length_cons, fmt02d_length hi,
    fmt02d_length (show 0 < 100 by norm_num), PQ_MAX_FILENAME_SIZE] at hfit ⊢
  omega

theorem fileName_inj {pfx : Str} {s i j : Nat} (hi : i < 100) (hj : j < 100)
    (hfit : (pfx ++ '/' :: (fmt010d s ++ '-' :: fmt02d 0)).length < PQ_MAX_FILENAME_SIZE)
    (h : fileName pfx s i = fileName pfx s j) : i = j := by
  rw [fileName_fit hi hfit, fileName_fit hj hfit] at h
  have h1 := List.append_cancel_left h
  simp only [List.cons.injEq, true_and] at h1
  have h2 := List.append_cancel_left h1
  simp only [List.cons.injEq, true_and] at h2
  exact fmt02d_inj hi hj h2

/-! ### Creating a file -/

theorem inDirectory_drop {pfx fn : Str} (h : inDirectory pfx fn = true) :
    pfx ++ '/' :: fn.drop (pfx.length + 1) = fn := by
  unfold inDirectory startsWith at h
  simp only [Bool.and_eq_true, decide_eq_true_eq] at h
  have hp := List.isPrefixOf_iff_prefix.mp h.1
  have := List.prefix_iff_eq_append.mp hp
  simp only [List.length_append, List.length_singleton, List.append_assoc,
    List.singleton_append] at this
  exact this

theorem fsCreate_exists {fs fs1 : FS} {pfx fn : Str} {b : List Byte}
    (h : fsCreate fs pfx fn b = some fs1) (p : Str) :
    fsExists fs1 pfx p = (fsExists fs pfx p || fn == p) := by
  unfold fsCreate at h
  split at h
  · simp at h
  · split at h
    · rename_i hin
      simp only [Option.some.injEq] at h
      subst h
      simp only [fsExists, pathOf, List.any_append, List.any_cons, List.any_nil, Bool.or_false]
      cases hpn : fs.pathNames
      · simp only [Bool.false_eq_true, if_false, inDirectory_drop hin]
        cases fs.entries.any _ <;> cases fs.elsewhere.any _ <;> simp
      · simp only [if_true]
        cases fs.entries.any _ <;> cases fs.elsewhere.any _ <;> simp
    · simp only [Option.some.injEq] at h
      subst h
      simp only [fsExists, pathOf, List.any_append, List.any_cons, List.any_nil, Bool.or_false]
      rw [Bool.or_assoc]

theorem fsCreate_deny {fs fs1 : FS} {pfx fn : Str} {b : List Byte}
    (h : fsCreate fs pfx fn b = some fs1) : fs1.denyCreate = fs.denyCreate := by
  unfold fsCreate at h
  split at h
  · simp at h
  · split at h <;> (simp only [Option.some.injEq] at h; subst h; rfl)

theorem fsCreate_isSome {fs : FS} {pfx fn : Str} (b : List Byte) (h : fn ∉ fs.denyCreate) :
    ∃ fs1, fsCreate fs pfx fn b = some fs1 := by
  unfold fsCreate
  rw [if_neg h]
  split <;> exact ⟨_, rfl⟩

/-! ### The probing loop of `enqueue` -/

theorem enqueueLoop_skip (q : PersistentQueue) (fs : FS) (s : Nat) (d : List Byte) (l : Nat)
    (m t i : Nat)
    (h : ∀ j, i ≤ j → j < i + m → fsExists fs q.m_prefix (fileName q.m_prefix s j) = true) :
    enqueueLoop q fs s d l (m + t) i = enqueueLoop q fs s d l t (i + m) := by
  induction m generalizing i with
  | zero => simp
  | succ m ih =>
    have e : m + 1 + t = (m + t) + 1 := by omega
    rw [e, enqueueLoop, h i (le_refl _) (by omega)]
    simp only [Bool.not_true, Bool.false_eq_true, if_false]
    rw [ih (i + 1) (fun j h1 h2 => h j (by omega) (by omega))]
    congr 1
    omega

theorem enqueueLoop_free {q : PersistentQueue} {fs fs1 : FS} {s : Nat} {d : List Byte}
    {l : Nat} (t i : Nat)
    (hfree : fsExists fs q.m_prefix (fileName q.m_prefix s i) = false)
    (hc : fsCreate fs q.m_prefix (fileName q.m_prefix s i) (fileBody q d l) = some fs1) :
    enqueueLoop q fs s d l (t + 1) i = (true, { q with m_lastError := PQ_ERROR_OK }, fs1) := by
  rw [enqueueLoop, hfree]
  simp [hc]

theorem fileName_congr {q q2 : PersistentQueue} (h : sameConfig q q2) (s i : Nat) :
    fileName q2.m_prefix s i = fileName q.m_prefix s i := by rw [h.1]

/-- A call with an explicit number whose first `k < 100` sub-indices are taken creates the
file with sub-index `k`. -/
theorem enqueue_at {q qk : PersistentQueue} {fsk : FS} {s k : Nat} (d : List Byte) (l : Nat)
    (hc : sameConfig q qk) (hinit : q.m_initialized = true) (hs0 : 0 < s)
    (hs : s < 4294967296) (hk : k < 100)
    (hex : ∀ i < 100, fsExists fsk q.m_prefix (fileName q.m_prefix s i) = decide (i < k))
    (hdeny : fileName q.m_prefix s k ∉ fsk.denyCreate) :
    ∃ fs1, fsCreate fsk q.m_prefix (fileName q.m_prefix s k) (fileBody q d l) = some fs1 ∧
      enqueue qk fsk s d l = (true, { qk with m_lastError := PQ_ERROR_OK }, fs1) := by
  obtain ⟨fs1, hcr⟩ := @fsCreate_isSome fsk q.m_prefix _ (fileBody q d l) hdeny
  refine ⟨fs1, hcr, ?_⟩
  have hu : u32 s = s := Nat.mod_eq_of_lt hs
  have hik : qk.m_initialized = true := hc.2.2.2.2.trans hinit
  have h1 : checkInitialized qk = (true, qk) := by simp [checkInitialized, hik]
  unfold enqueue
  rw [h1]
  simp only [hu, Bool.not_true, Bool.false_eq_true, if_false]
  rw [if_neg (by omega)]
  have e : PQ_MAX_SUBFILENAMES = k + ((99 - k) + 1) := by simp [PQ_MAX_SUBFILENAMES]; omega
  rw [e, enqueueLoop_skip qk fsk s d l k _ 0]
  · rw [Nat.zero_add]
    apply enqueueLoop_free
    · rw [hc.1, hex k hk]; simp
    · rw [hc.1, fileBody_congr hc]; exact hcr
  · intro j _ hj
    rw [hc.1, hex j (by omega)]
    simp; omega

/-- A call with an explicit number all of whose 100 sub-indices are taken fails. -/
theorem enqueue_full {q qk : PersistentQueue} {fsk : FS} {s : Nat} (d : List Byte) (l : Nat)
    (hc : sameConfig q qk) (hinit : q.m_initialized = true) (hs0 : 0 < s)
    (hs : s < 4294967296)
    (hex : ∀ i < 100, fsExists fsk q.m_prefix (fileName q.m_prefix s i) = true) :
    enqueue qk fsk s d l =
      (false, { qk with m_lastError := PQ_ERROR_OUT_OF_SUBNUMBERS }, fsk) := by
  have hu : u32 s = s := Nat.mod_eq_of_lt hs
  have hik : qk.m_initialized = true := hc.2.2.2.2.trans hinit
  have h1 : checkInitialized qk = (true, qk) := by simp [checkInitialized, hik]
  unfold enqueue
  rw [h1]
  simp only [hu, Bool.not_true, Bool.false_eq_true, if_false]
  rw [if_neg (by omega)]
  have e : PQ_MAX_SUBFILENAMES = 100 + 0 := rfl
  rw [e, enqueueLoop_skip qk fsk s d l 100 0 0]
  · rfl
  · intro j _ hj
    rw [hc.1]
    exact hex j (by omega)

/-- State after `k ≤ 100` calls with the same explicit number `s`, none of whose names
existed before: the configuration is unchanged, exactly the sub-indices below `k` exist,
and the set of refused paths is the initial one. -/
theorem enqueueMany_inv (q : PersistentQueue) (fs : FS) (s : Nat) (P : Nat → List Byte)
    (hinit : q.m_initialized = true) (hs0 : 0 < s) (hs : s < 4294967296)
    (hfit : (q.m_prefix ++ '/' :: (fmt010d s ++ '-' :: fmt02d 0)).length < PQ_MAX_FILENAME_SIZE)
    (hfree : ∀ i < 100, fsExists fs q.m_prefix (fileName q.m_prefix s i) = false)
    (hcreate : ∀ i < 100, fileName q.m_prefix s i ∉ fs.denyCreate) (k : Nat) (hk : k ≤ 100) :
    sameConfig q (enqueueMany q fs s P k).2.1 ∧
    (∀ i < 100, fsExists (enqueueMany q fs s P k).2.2 q.m_prefix (fileName q.m_prefix s i) =
      decide (i < k)) ∧
    (enqueueMany q fs s P k).2.2.denyCreate = fs.denyCreate := by
  induction k with
  | zero =>
    refine ⟨sameConfig_refl q, ?_, rfl⟩
    intro i hi
    simp [enqueueMany, hfree i hi]
  | succ k ih =>
    obtain ⟨hc, hex, hd⟩ := ih (by omega)
    have hk1 : k < 100 := by omega
    obtain ⟨fs1, hcr, he⟩ := enqueue_at (P k) (P k).length hc hinit hs0 hs hk1 hex
      (by rw [hd]; exact hcreate k hk1)
    simp only [enqueueMany, he]
    refine ⟨sameConfig_trans hc (sameConfig_setErr _ _), ?_, ?_⟩
    · intro i hi
      rw [fsCreate_exists hcr, hex i hi]
      by_cases hik : i = k
      · subst hik; simp
      · have hne : (fileName q.m_prefix s k == fileName q.m_prefix s i) = false := by
          rw [beq_eq_false_iff_ne]
          intro h
          exact hik (fileName_inj hk1 hi hfit h).symm
        rw [hne]
        simp
        omega
    · rw [fsCreate_deny hcr, hd]

/-! ### Decoding a formatted sequence number -/

theorem fixedDigits_length (w n : Nat) : (fixedDigits w n).length = w := by
  induction w generalizing n with
  | zero => rfl
  | succ w ih => simp [fixedDigits, ih]

theorem leadingDigits_digit (d : Nat) (cs : Str) (acc : Nat) :
    leadingDigits (digitChar d :: cs) acc = leadingDigits cs (acc * 10 + d % 10) := by
  have h := digitChar_toNat (d % 10) (Nat.mod_lt _ (by norm_num))
  rw [← digitChar_mod] at h
  simp only [leadingDigits, h]
  rw [if_pos (by omega)]
  congr 1
  omega

theorem leadingDigits_fixedDigits (w n : Nat) (tail : Str) (acc : Nat) :
    leadingDigits (fixedDigits w n ++ tail) acc =
      leadingDigits tail (acc * 10 ^ w + n % 10 ^ w) := by
  induction w generalizing n tail acc with
  | zero => simp [fixedDigits, Nat.mod_one]
  | succ w ih =>
    rw [fixedDigits, List.append_assoc, ih, List.singleton_append, leadingDigits_digit]
    congr 1
    have h1 : n % 10 ^ (w + 1) = n / 10 % 10 ^ w * 10 + n % 10 := by
      rw [pow_succ, Nat.mul_comm, Nat.mod_mul]
      ring
    rw [h1, pow_succ]
    ring

theorem atol_of_digit (c : Char) (cs : Str) (h : 48 ≤ c.toNat ∧ c.toNat ≤ 57) :
    atol (c :: cs) = min (leadingDigits (c :: cs) 0 : Int) 2147483647 := by
  have hsp : isSpace c = false := by
    simp only [isSpace, Bool.or_eq_false_iff, decide_eq_false_iff_not, Bool.and_eq_false_imp,
      decide_eq_true_eq]
    omega
  unfold atol
  rw [List.dropWhile_cons, hsp]
  simp only [Bool.false_eq_true, if_false]
  split
  · rename_i t heq
    simp only [List.cons.injEq] at heq
    have : c.toNat = 45 := by rw [heq.1]; rfl
    omega
  · rename_i t heq
    simp only [List.cons.injEq] at heq
    have : c.toNat = 43 := by rw [heq.1]; rfl
    omega
  · rfl

theorem digitChar_range (d : Nat) : 48 ≤ (digitChar d).toNat ∧ (digitChar d).toNat ≤ 57 := by
  have h := digitChar_toNat (d % 10) (Nat.mod_lt _ (by norm_num))
  rw [← digitChar_mod] at h
  omega

/-- Decoding the ten digits `%010d` prints for a number below `2^31` gives the number
back. -/
theorem toInt_fmt010d {s : Nat} (hs : s < 2147483648) :
    fmt010d s = fixedDigits 10 s ∧ u32OfInt (toInt (fixedDigits 10 s)) = s := by
  refine ⟨by simp [fmt010d, hs], ?_⟩
  have e : fixedDigits 10 s = digitChar (s / 1000000000) :: fixedDigits 9 s := by
    simp [fixedDigits, Nat.div_div_eq_div_mul]
  have hld : leadingDigits (fixedDigits 10 s) 0 = s := by
    have h := leadingDigits_fixedDigits 10 s [] 0
    rw [List.append_nil] at h
    rw [h]
    show 0 * 10 ^ 10 + s % 10 ^ 10 = s
    norm_num
    omega
  unfold toInt
  rw [e, atol_of_digit _ _ (digitChar_range _), ← e, hld]
  unfold u32OfInt
  omega

/-! ### One message in an otherwise empty directory -/

theorem fileName_small {pfx : Str} {s : Nat} (hs : s < 2147483648)
    (hfit : pfx.length + 14 < PQ_MAX_FILENAME_SIZE) :
    fileName pfx s 0 = pfx ++ '/' :: (fixedDigits 10 s ++ '-' :: fmt02d 0) := by
  have h := @fileName_fit pfx s 0 (by norm_num)
    (by
      simp only [List.length_append, List.length_cons, (toInt_fmt010d hs).1,
        fixedDigits_length, fmt02d_length (show 0 < 100 by norm_num)]
      omega)
  rw [h, (toInt_fmt010d hs).1]

theorem substring_fileName (pfx : Str) (s : Nat) (tail : Str) :
    substring (pfx ++ '/' :: (fixedDigits 10 s ++ tail)) (pfx.length + 1) (pfx.length + 1 + 10) =
      fixedDigits 10 s := by
  unfold substring
  have e : pfx ++ '/' :: (fixedDigits 10 s ++ tail) = (pfx ++ ['/']) ++ (fixedDigits 10 s ++ tail) := by
    simp
  rw [e, List.drop_left' (by simp)]
  have e2 : pfx.length + 1 + 10 - (pfx.length + 1) = (fixedDigits 10 s).length := by
    rw [fixedDigits_length]; omega
  rw [e2, List.take_left]

/-- The scan over a directory that holds exactly the file `enqueue` wrote for a sequence
number `0 < s < 2^31` returns that file, except in `PQ_DEQUEUE_LATEST` order for
`s = 1`. -/
theorem findLoop_single (pfx : Str) (magic : Nat) (hm : magic < 4294967296) (fc : Bool)
    (ord : pqDequeueOrder_t) (s : Nat) (hs : s < 2147483648) (tail : Str) (body : List Byte)
    (cm : Nat)
    (hord : (ord = PQ_DEQUEUE_OLDEST ∧ 0 < s) ∨ (ord = PQ_DEQUEUE_LATEST ∧ 1 < s)) :
    (findLoop pfx magic fc ord
      [⟨pfx ++ '/' :: (fixedDigits 10 s ++ tail), false, le32 magic ++ body⟩]
      ⟨if ord = PQ_DEQUEUE_OLDEST then UINT32_MAX else 1, [], cm⟩).soughtFileName =
      pfx ++ '/' :: (fixedDigits 10 s ++ tail) := by
  have hnum := (toInt_fmt010d hs).2
  have hz : ¬ s = 0 := by rcases hord with h | h <;> omega
  simp only [findLoop, substring_fileName, hnum, rd32_le32_append magic hm]
  rcases hord with ⟨ho, h0⟩ | ⟨ho, h1⟩
  · subst ho
    have : s < UINT32_MAX := by unfold UINT32_MAX; omega
    simp [hz, this]
  · subst ho
    simp [hz, h1]

theorem inDirectory_fileName (pfx : Str) (rest : Str) (h : rest ≠ []) :
    inDirectory pfx (pfx ++ '/' :: rest) = true := by
  unfold inDirectory startsWith
  simp only [Bool.and_eq_true, decide_eq_true_eq, List.length_append, List.length_cons]
  constructor
  · rw [List.isPrefixOf_iff_prefix]
    exact ⟨rest, by simp⟩
  · have := List.length_pos.mpr h
    omega

/-- What the probing loop does on `emptyDir` for a sequence number below `2^31`: it creates
the file with sub-index 0. -/
theorem enqueueLoop_emptyDir (q : PersistentQueue) (s : Nat) (P : List Byte) (l : Nat)
    (hs : s < 2147483648) (hfit : q.m_prefix.length + 14 < PQ_MAX_FILENAME_SIZE) :
    enqueueLoop q emptyDir s P l PQ_MAX_SUBFILENAMES 0 =
      (true, { q with m_lastError := PQ_ERROR_OK },
        { emptyDir with entries :=
            [⟨q.m_prefix ++ '/' :: (fixedDigits 10 s ++ '-' :: fmt02d 0), false,
              fileBody q P l⟩] }) := by
  have e : PQ_MAX_SUBFILENAMES = 99 + 1 := rfl
  rw [e]
  apply enqueueLoop_free
  · rfl
  · rw [fileName_small hs hfit]
    unfold fsCreate
    rw [if_neg (by simp [emptyDir]), if_pos (inDirectory_fileName _ _ (by simp))]
    rfl

/-- Round trip on the range where selection works (not one of the numbered claims): on an
initialised queue over `emptyDir`, with a prefix as `begin` leaves it and short enough for
the file name buffer, an `enqueue` whose resolved sequence number `s` is below `2^31`, and
positive in `PQ_DEQUEUE_OLDEST` order or above 1 in `PQ_DEQUEUE_LATEST` order, returns true
and the next `dequeue` with an adequate non-null buffer returns the payload and empties the
directory. -/
theorem roundtrip_in_range (q : PersistentQueue) (name : Nat) (P buf : List Byte)
    (len al : Nat) (fc : Bool)
    (hinit : q.m_initialized = true) (hm : q.m_magic < 4294967296)
    (hpfx : q.m_prefix = [] ∨ startsWith q.m_prefix ['/'] = true)
    (hfit : q.m_prefix.length + 14 < PQ_MAX_FILENAME_SIZE)
    (hs : (if u32 name = 0 then q.m_counter else u32 name) < 2147483648)
    (hord : (q.m_order = PQ_DEQUEUE_OLDEST ∧
        0 < (if u32 name = 0 then q.m_counter else u32 name)) ∨
      (q.m_order = PQ_DEQUEUE_LATEST ∧
        1 < (if u32 name = 0 then q.m_counter else u32 name)))
    (hlen : P.length ≤ len) :
    (enqueue q emptyDir name P P.length).1 = true ∧
    (dequeue (enqueue q emptyDir name P P.length).2.1 (enqueue q emptyDir name P P.length).2.2
      (some buf) len al fc).ret = true ∧
    (dequeue (enqueue q emptyDir name P P.length).2.1 (enqueue q emptyDir name P P.length).2.2
      (some buf) len al fc).q.m_lastError = PQ_ERROR_OK ∧
    (dequeue (enqueue q emptyDir name P P.length).2.1 (enqueue q emptyDir name P P.length).2.2
      (some buf) len al fc).actual_len = P.length ∧
    (dequeue (enqueue q emptyDir name P P.length).2.1 (enqueue q emptyDir name P P.length).2.2
      (some buf) len al fc).data = some (P ++ List.replicate (len - P.length) 0) ∧
    (dequeue (enqueue q emptyDir name P P.length).2.1 (enqueue q emptyDir name P P.length).2.2
      (some buf) len al fc).fs = emptyDir := by
  -- the state `enqueue` leaves
  obtain ⟨q2, hq2, henq⟩ : ∃ q2, sameConfig q q2 ∧
      enqueue q emptyDir name P P.length = (true, q2,
        { emptyDir with entries :=
            [⟨q.m_prefix ++ '/' ::
                (fixedDigits 10 (if u32 name = 0 then q.m_counter else u32 name) ++
                  '-' :: fmt02d 0), false, fileBody q P P.length⟩] }) := by
    have h1 : checkInitialized q = (true, q) := by simp [checkInitialized, hinit]
    unfold enqueue
    rw [h1]
    simp only [Bool.not_true, Bool.false_eq_true, if_false]
    by_cases h0 : u32 name = 0
    · rw [if_pos h0] at hs ⊢
      rw [if_pos h0]
      have hc : sameConfig q { q with m_counter := u32 (q.m_counter + 1) } := by
        simp [sameConfig]
      refine ⟨_, sameConfig_trans hc (sameConfig_setErr _ PQ_ERROR_OK), ?_⟩
      have hfit2 : (PersistentQueue.m_prefix { q with m_counter := u32 (q.m_counter + 1) }).length
          + 14 < PQ_MAX_FILENAME_SIZE := hfit
      rw [enqueueLoop_emptyDir _ _ _ _ hs hfit2]
      rfl
    · rw [if_neg h0] at hs ⊢
      rw [if_neg h0]
      refine ⟨_, sameConfig_setErr _ PQ_ERROR_OK, ?_⟩
      rw [enqueueLoop_emptyDir _ _ _ _ hs hfit]
  rw [henq]
  refine ⟨rfl, ?_⟩
  simp only
  generalize hsdef : (if u32 name = 0 then q.m_counter else u32 name) = s at hs hord henq ⊢
  generalize hndef : q.m_prefix ++ '/' :: (fixedDigits 10 s ++ '-' :: fmt02d 0) = n
  have hnne : n ≠ [] := by rw [← hndef]; simp
  have hbody : fileBody q P P.length =
      le32 q2.m_magic ++ P ++
        (if q2.m_calcCRC then le32 (pq_crc32_default P) else []) := by
    rw [hq2.2.1, hq2.2.2.1]
    simp [fileBody]
  have hm2 : q2.m_magic < 4294967296 := by rw [hq2.2.1]; exact hm
  have hi2 : q2.m_initialized = true := hq2.2.2.2.2.trans hinit
  have hstart : startsWith n ['/'] = true := by
    rw [← hndef]
    rcases hpfx with h | h
    · rw [h]; rfl
    · unfold startsWith at h ⊢
      rw [List.isPrefixOf_iff_prefix] at h ⊢
      exact h.trans (List.prefix_append _ _)
  have hfp : fullPath q2 n = n := by simp [fullPath, hstart]
  -- selection returns the file
  have hsel : (findNextMessage q2
      { emptyDir with entries := [⟨n, false, fileBody q P P.length⟩] } fc
      PQ_DEQUEUE_DEFAULT).1 = n := by
    unfold findNextMessage checkInitialized
    simp only [hi2, Bool.not_true, Bool.false_eq_true, if_false, if_true, emptyDir]
    rw [hq2.1, hq2.2.1, hq2.2.2.2.1, ← hndef, fileBody, List.append_assoc]
    exact findLoop_single q.m_prefix q.m_magic hm fc q.m_order s hs _ _ _ hord
  have hopen : fsOpenRead { emptyDir with entries := [⟨n, false, fileBody q P P.length⟩] }
      q2.m_prefix (fullPath q2 n) = some (fileBody q P P.length) := by
    rw [hfp]
    simp [fsOpenRead, emptyDir, pathOf]
  obtain ⟨q3, hq3, hd⟩ := dequeue_selected hsel hnne hopen (some buf) len al
  have hq3c : sameConfig q q3 := sameConfig_trans hq2 hq3
  have hm3 : q3.m_magic < 4294967296 := by rw [hq3c.2.1]; exact hm
  have hbody3 : fileBody q P P.length =
      le32 q3.m_magic ++ P ++
        (if q3.m_calcCRC then le32 (pq_crc32_default P) else []) := by
    rw [hq3c.2.1, hq3c.2.2.1]
    simp [fileBody]
  have hrem : (fsRemove { emptyDir with entries := [⟨n, false, fileBody q P P.length⟩] }
      q3.m_prefix n).2 = emptyDir := by
    simp [fsRemove, emptyDir, pathOf]
  have hl : ¬ len < P.length := by omega
  rw [hd, hfp]
  have h2 := dequeueOpened_body q3
    { emptyDir with entries := [⟨n, false, fileBody q P P.length⟩] } n P (pq_crc32_default P)
    hm3 (pq_crc32_default_lt P) (some buf) len al
  rw [← hbody3] at h2
  rw [h2, if_neg hl]
  simp [hrem]

/-! ### The table-driven checksum against the bitwise one -/

theorem crcBitStep_eq (y : Nat) :
    crcBitStep y = if y % 2 = 1 then y / 2 ^^^ 3988292384 else y / 2 := by
  unfold crcBitStep CRC32_POLY
  rw [Nat.and_one_is_mod, Nat.shiftRight_succ, Nat.shiftRight_zero]

theorem xor_even_mod_two (y c : Nat) (hc : c % 2 = 0) : (y ^^^ c) % 2 = y % 2 := by
  have h := @Nat.xor_mod_two_eq_one y c
  rcases Nat.mod_two_eq_zero_or_one y with hy | hy <;>
    rcases Nat.mod_two_eq_zero_or_one (y ^^^ c) with hx | hx <;>
    simp [hy, hx, hc] at h ⊢

theorem crcBitStep_odd (y c : Nat) (hy : y % 2 = 1) (hc : c % 2 = 0) :
    crcBitStep (y ^^^ c) = y / 2 ^^^ (c / 2 ^^^ 3988292384) := by
  rw [crcBitStep_eq, xor_even_mod_two y c hc, if_pos hy, Nat.xor_div_two, Nat.xor_assoc]

theorem crcBitStep_even (y c : Nat) (hy : y % 2 = 0) (hc : c % 2 = 0) :
    crcBitStep (y ^^^ c) = y / 2 ^^^ (c / 2) := by
  rw [crcBitStep_eq, xor_even_mod_two y c hc, if_neg (by omega), Nat.xor_div_two]

/-- Four bit steps are one table step. -/
theorem crcBitStep_four (x : Nat) :
    crcBitStep (crcBitStep (crcBitStep (crcBitStep x))) = crcNibble x := by
  rw [crcNibble_eq]
  have e16 : x / 16 = x / 2 / 2 / 2 / 2 := by omega
  have hx : x = x ^^^ 0 := (Nat.xor_zero x).symm
  rcases Nat.mod_two_eq_zero_or_one x with h0 | h0 <;>
    rcases Nat.mod_two_eq_zero_or_one (x / 2) with h1 | h1 <;>
    rcases Nat.mod_two_eq_zero_or_one (x / 2 / 2) with h2 | h2 <;>
    rcases Nat.mod_two_eq_zero_or_one (x / 2 / 2 / 2) with h3 | h3
  all_goals
    have hm : x % 16 = x % 2 + 2 * (x / 2 % 2) + 4 * (x / 2 / 2 % 2) + 8 * (x / 2 / 2 / 2 % 2) := by
      omega
    rw [hm, h0, h1, h2, h3, e16]
    conv_lhs => rw [hx]
    first
      | rw [crcBitStep_odd x _ h0 (by decide)]
      | rw [crcBitStep_even x _ h0 (by decide)]
    first
      | rw [crcBitStep_odd (x / 2) _ h1 (by decide)]
      | rw [crcBitStep_even (x / 2) _ h1 (by decide)]
    first
      | rw [crcBitStep_odd (x / 2 / 2) _ h2 (by decide)]
      | rw [crcBitStep_even (x / 2 / 2) _ h2 (by decide)]
    first
      | rw [crcBitStep_odd (x / 2 / 2 / 2) _ h3 (by decide)]
      | rw [crcBitStep_even (x / 2 / 2 / 2) _ h3 (by decide)]
    rw [Nat.xor_comm]
    congr 1

theorem crcByteBitwise_eq (c : Nat) (b : Byte) : crcByteBitwise c b = crcByte c b := by
  unfold crcByteBitwise crcByte
  rw [crcBitStep_four, crcBitStep_four]

theorem crcRegisterBitwise_eq (d : List Byte) (c : Nat) :
    crcRegisterBitwise d c = pq_crc32 d c := by
  unfold crcRegisterBitwise pq_crc32
  congr 1
  funext c b
  exact crcByteBitwise_eq c b

/-! ### Prefix normalisation in `begin` -/

theorem isPrefixOf_slash_dropWhile (l : Str) :
    List.isPrefixOf ['/'] (l.dropWhile (fun c => c == '/')) = false := by
  induction l with
  | nil => rfl
  | cons a t ih =>
    rw [List.dropWhile_cons]
    by_cases h : (a == '/') = true
    · rw [if_pos h]; exact ih
    · rw [if_neg h]
      simp only [Bool.not_eq_true, beq_eq_false_iff_ne, ne_eq] at h
      simp only [List.isPrefixOf, Bool.and_true, beq_eq_false_iff_ne, ne_eq]
      exact fun e => h e.symm

theorem dropWhile_slash_id (l : Str) (h : List.isPrefixOf ['/'] l = false) :
    l.dropWhile (fun c => c == '/') = l := by
  cases l with
  | nil => rfl
  | cons a t =>
    rw [List.dropWhile_cons]
    have : (a == '/') = false := by
      simp only [List.isPrefixOf, Bool.and_true, beq_eq_false_iff_ne, ne_eq] at h
      rw [beq_eq_false_iff_ne]
      exact fun e => h e.symm
    simp [this]

theorem strip_not_endsWith (s : Str) : endsWith (stripTrailingSlashes s) ['/'] = false := by
  unfold endsWith stripTrailingSlashes
  rw [List.reverse_reverse]
  exact isPrefixOf_slash_dropWhile _

theorem strip_decomp (s : Str) :
    ∃ t, s = stripTrailingSlashes s ++ t ∧ ∀ c ∈ t, c = '/' := by
  refine ⟨(s.reverse.takeWhile (fun c => c == '/')).reverse, ?_, ?_⟩
  · unfold stripTrailingSlashes
    rw [← List.reverse_append, List.takeWhile_append_dropWhile, List.reverse_reverse]
  · intro c hc
    rw [List.mem_reverse] at hc
    simpa using (List.mem_takeWhile_imp hc)

theorem strip_of_not_endsWith (s : Str) (h : endsWith s ['/'] = false) :
    stripTrailingSlashes s = s := by
  unfold stripTrailingSlashes
  unfold endsWith at h
  rw [dropWhile_slash_id _ h, List.reverse_reverse]

theorem strip_all_slashes (s : Str) (h : ∀ c ∈ s, c = '/') : stripTrailingSlashes s = [] := by
  unfold stripTrailingSlashes
  rw [List.reverse_eq_nil_iff, List.dropWhile_eq_nil_iff]
  intro c hc
  rw [List.mem_reverse] at hc
  simp [h c hc]

theorem strip_startsWith (s : Str) (hs : startsWith s ['/'] = true)
    (hne : stripTrailingSlashes s ≠ []) : startsWith (stripTrailingSlashes s) ['/'] = true := by
  obtain ⟨t, ht, _⟩ := strip_decomp s
  cases hr : stripTrailingSlashes s with
  | nil => exact absurd hr hne
  | cons a r =>
    rw [hr] at ht
    rw [ht] at hs
    simpa [startsWith, List.isPrefixOf] using hs

/-- The string the first three statements of `begin` work on before the trailing slashes
go: it is empty or starts with a slash. -/
theorem withLeadingSlash (p : Str) :
    (if p.length > 0 && !startsWith p ['/'] then '/' :: p else p) = [] ∨
      startsWith (if p.length > 0 && !startsWith p ['/'] then '/' :: p else p) ['/'] = true := by
  cases p with
  | nil => left; rfl
  | cons a t =>
    right
    cases h : startsWith (a :: t) ['/']
    · simp [h, startsWith, List.isPrefixOf]
    · simp only [List.length_cons, gt_iff_lt, Nat.zero_lt_succ, decide_True, h, Bool.not_true,
        Bool.and_false, Bool.false_eq_true, if_false]

theorem normalizePrefix_nil_or_slash (p : Str) :
    normalizePrefix p = [] ∨ startsWith (normalizePrefix p) ['/'] = true := by
  unfold normalizePrefix
  rcases withLeadingSlash p with h | h
  · left; rw [h]; rfl
  · by_cases hne : stripTrailingSlashes
        (if p.length > 0 && !startsWith p ['/'] then '/' :: p else p) = []
    · left; exact hne
    · right; exact strip_startsWith _ h hne

theorem normalizePrefix_idem (p : Str) :
    normalizePrefix (normalizePrefix p) = normalizePrefix p := by
  have hend : endsWith (normalizePrefix p) ['/'] = false := strip_not_endsWith _
  rcases normalizePrefix_nil_or_slash p with h | h
  · rw [h]; rfl
  · generalize normalizePrefix p = r at h hend ⊢
    unfold normalizePrefix
    simp only [h, Bool.not_true, Bool.and_false, Bool.false_eq_true, if_false]
    exact strip_of_not_endsWith r hend

theorem begin_stores_normalized (q : PersistentQueue) (fs : FS) (p : Str) :
    PersistentQueue.m_prefix (begin q fs p).2 = normalizePrefix p := by
  unfold begin
  simp only
  split
  · exact ((findNextMessage_sameConfig _ fs false PQ_DEQUEUE_LATEST).1).trans
      (isQueueEmpty_sameConfig _ fs false).1
  · exact (isQueueEmpty_sameConfig _ fs false).1

theorem normalizePrefix_all_slashes (p : Str) (h : ∀ c ∈ p, c = '/') :
    normalizePrefix p = [] := by
  unfold normalizePrefix
  apply strip_all_slashes
  intro c hc
  split at hc
  · rcases List.mem_cons.mp hc with h1 | h1
    · exact h1
    · exact h c h1
  · exact h c hc

theorem normalizePrefix_ne_nil (p : Str) (h : ∃ c ∈ p, c ≠ '/') :
    normalizePrefix p ≠ [] := by
  obtain ⟨c, hc, hne⟩ := h
  unfold normalizePrefix
  obtain ⟨t, ht, hall⟩ := strip_decomp
    (if p.length > 0 && !startsWith p ['/'] then '/' :: p else p)
  intro hnil
  rw [hnil, List.nil_append] at ht
  have hmem : c ∈ (if p.length > 0 && !startsWith p ['/'] then '/' :: p else p) := by
    split
    · exact List.mem_cons_of_mem _ hc
    · exact hc
  rw [ht] at hmem
  exact hne (hall c hmem)

/-! ### The two variants of `dequeue` -/

theorem isQueueEmpty_counter (q : PersistentQueue) (fs : FS) (fc : Bool) :
    (isQueueEmpty q fs fc).2.m_counter = q.m_counter := by
  unfold isQueueEmpty checkInitialized
  cases q.m_initialized <;> cases fs.isDirectory <;> simp

theorem findNextMessage_counter (q : PersistentQueue) (fs : FS) (fc : Bool)
    (o : pqDequeueOrder_t) : (findNextMessage q fs fc o).2.m_counter = q.m_counter := by
  unfold findNextMessage checkInitialized
  cases q.m_initialized <;> cases fs.isDirectory <;> simp

/-- Either both variants fail before a file is opened, with the same object state and no
change to the filesystem or the output arguments, or both continue with the same opened
file and the same object state. -/
theorem dequeue_both (q : PersistentQueue) (fs : FS) (data : Option (List Byte))
    (len al : Nat) (data2 : Option (List Byte)) (len2 : Nat) (fc mallocOk : Bool) :
    (∃ q1, q1.m_lastError ≠ PQ_ERROR_OK ∧ q1.m_counter = q.m_counter ∧
      dequeue q fs data len al fc = ⟨false, q1, fs, data, al⟩ ∧
      dequeueAlloc q fs data2 len2 fc mallocOk = ⟨false, q1, fs, data2, len2⟩) ∨
    (∃ q1 F, (findNextMessage q fs fc PQ_DEQUEUE_DEFAULT).1 ≠ [] ∧
      fsOpenRead fs q.m_prefix (fullPath q (findNextMessage q fs fc PQ_DEQUEUE_DEFAULT).1) =
        some F ∧
      sameConfig q q1 ∧ q1.m_counter = q.m_counter ∧
      dequeue q fs data len al fc =
        dequeueOpened q1 fs (fullPath q (findNextMessage q fs fc PQ_DEQUEUE_DEFAULT).1) F data
          len al ∧
      dequeueAlloc q fs data2 len2 fc mallocOk =
        dequeueAllocOpened q1 fs (fullPath q (findNextMessage q fs fc PQ_DEQUEUE_DEFAULT).1) F
          data2 len2 mallocOk) := by
  cases hi : q.m_initialized
  · left
    refine ⟨{ q with m_lastError := PQ_ERROR_NOT_INITIALIZED }, by simp, rfl, ?_, ?_⟩ <;>
      simp [dequeue, dequeueAlloc, checkInitialized, hi]
  · have hci : checkInitialized q = (true, q) := by simp [checkInitialized, hi]
    obtain ⟨b, q0, hE⟩ : ∃ b q0, isQueueEmpty q fs true = (b, q0) := ⟨_, _, rfl⟩
    have hc0 : sameConfig q q0 := by
      have := isQueueEmpty_sameConfig q fs true
      rwa [hE] at this
    have hk0 : q0.m_counter = q.m_counter := by
      have := isQueueEmpty_counter q fs true
      rwa [hE] at this
    cases b
    · -- a message may be there
      obtain ⟨n, q1, hF⟩ : ∃ n q1, findNextMessage q0 fs fc PQ_DEQUEUE_DEFAULT = (n, q1) :=
        ⟨_, _, rfl⟩
      have hc1 : sameConfig q q1 := by
        have := findNextMessage_sameConfig q0 fs fc PQ_DEQUEUE_DEFAULT
        rw [hF] at this
        exact sameConfig_trans hc0 this
      have hk1 : q1.m_counter = q.m_counter := by
        have := findNextMessage_counter q0 fs fc PQ_DEQUEUE_DEFAULT
        rw [hF] at this
        exact this.trans hk0
      have hn : (findNextMessage q fs fc PQ_DEQUEUE_DEFAULT).1 = n := by
        rw [← findNextMessage_fst_congr q q0 hc0, hF]
      rw [hn]
      by_cases hlen : n.length = 0
      · left
        refine ⟨{ q1 with m_lastError := PQ_ERROR_QUEUE_EMPTY }, by simp, hk1, ?_, ?_⟩ <;>
          simp [dequeue, dequeueAlloc, hci, hE, hF, hlen]
      · have hfp : fullPath q1 n = fullPath q n := fullPath_congr hc1 n
        cases ho : fsOpenRead fs q.m_prefix (fullPath q n) with
        | none =>
          left
          refine ⟨{ q1 with m_lastError := PQ_ERROR_FILE_OP }, by simp, hk1, ?_, ?_⟩ <;>
            simp [dequeue, dequeueAlloc, hci, hE, hF, hlen, hfp, hc1.1, ho]
        | some F =>
          right
          refine ⟨q1, F, ?_, rfl, hc1, hk1, ?_, ?_⟩
          · intro h0; exact hlen (by rw [h0]; rfl)
          · simp [dequeue, hci, hE, hF, hlen, hfp, hc1.1, ho]
          · simp [dequeueAlloc, hci, hE, hF, hlen, hfp, hc1.1, ho]
    · left
      refine ⟨{ q0 with m_lastError := PQ_ERROR_QUEUE_EMPTY }, by simp, hk0, ?_, ?_⟩ <;>
        simp [dequeue, dequeueAlloc, hci, hE]

theorem dequeueOpened_facts (q1 : PersistentQueue) (fs : FS) (fp : Str) (F : List Byte)
    (data : Option (List Byte)) (len al : Nat) :
    ((dequeueOpened q1 fs fp F data len al).ret = true ↔
      (dequeueOpened q1 fs fp F data len al).q.m_lastError = PQ_ERROR_OK) ∧
    (dequeueOpened q1 fs fp F data len al).q.m_counter = q1.m_counter ∧
    ((dequeueOpened q1 fs fp F data len al).ret = false →
      (dequeueOpened q1 fs fp F data len al).fs = fs) ∧
    ((dequeueOpened q1 fs fp F data len al).ret = true →
      (dequeueOpened q1 fs fp F data len al).fs = (fsRemove fs q1.m_prefix fp).2) := by
  unfold dequeueOpened
  simp only
  split_ifs <;> cases data <;> simp

theorem dequeueAllocOpened_facts (q1 : PersistentQueue) (fs : FS) (fp : Str) (F : List Byte)
    (data : Option (List Byte)) (len : Nat) (mallocOk : Bool) :
    ((dequeueAllocOpened q1 fs fp F data len mallocOk).ret = true ↔
      (dequeueAllocOpened q1 fs fp F data len mallocOk).q.m_lastError = PQ_ERROR_OK) ∧
    (dequeueAllocOpened q1 fs fp F data len mallocOk).q.m_counter = q1.m_counter ∧
    ((dequeueAllocOpened q1 fs fp F data len mallocOk).ret = false →
      (dequeueAllocOpened q1 fs fp F data len mallocOk).fs = fs) ∧
    ((dequeueAllocOpened q1 fs fp F data len mallocOk).ret = true →
      (dequeueAllocOpened q1 fs fp F data len mallocOk).fs = (fsRemove fs q1.m_prefix fp).2) := by
  unfold dequeueAllocOpened
  simp only
  split_ifs <;> simp

/-- On the same opened file, with a successful `malloc` on one side and a non-null buffer
at least as long as the payload on the other, the post-open parts of the two variants
agree. -/
theorem opened_variants_agree (q1 : PersistentQueue) (fs : FS) (fp : Str) (F buf : List Byte)
    (len al : Nat) (data2 : Option (List Byte)) (len2 : Nat)
    (hcap : F.length - (if q1.m_calcCRC then 8 else 4) ≤ len) :
    (dequeueAllocOpened q1 fs fp F data2 len2 true).ret =
      (dequeueOpened q1 fs fp F (some buf) len al).ret ∧
    (dequeueAllocOpened q1 fs fp F data2 len2 true).q =
      (dequeueOpened q1 fs fp F (some buf) len al).q ∧
    (dequeueAllocOpened q1 fs fp F data2 len2 true).fs =
      (dequeueOpened q1 fs fp F (some buf) len al).fs ∧
    ((dequeueAllocOpened q1 fs fp F data2 len2 true).ret = true →
      (dequeueAllocOpened q1 fs fp F data2 len2 true).len =
        (dequeueOpened q1 fs fp F (some buf) len al).actual_len ∧
      ∃ p, (dequeueAllocOpened q1 fs fp F data2 len2 true).data = some p ∧
        p.length = (dequeueAllocOpened q1 fs fp F data2 len2 true).len ∧
        (dequeueOpened q1 fs fp F (some buf) len al).data =
          some (p ++ List.replicate (len - p.length) 0)) := by
  unfold dequeueAllocOpened dequeueOpened
  have h44 : (if q1.m_calcCRC = true then 4 + 4 else 4) = if q1.m_calcCRC = true then 8 else 4 := by
    rfl
  simp only [h44]
  generalize (if q1.m_calcCRC = true then 8 else 4) = k at hcap ⊢
  have hl : ¬ len < F.length - k := by omega
  simp only [hl, if_false, Bool.not_true, Bool.false_eq_true]
  by_cases h1 : F.length < k
  · simp only [h1, if_true]
    simp
  · simp only [h1, if_false]
    by_cases h2 : (rd32 F != q1.m_magic) = true
    · simp only [h2, if_true]
      simp
    · simp only [h2, if_false]
      by_cases h3 : ((List.take (F.length - k) (List.drop 4 F)).length != F.length - k) = true
      · simp only [h3, if_true]
        simp
      · simp only [h3, if_false]
        have h3' : (List.take (F.length - k) (List.drop 4 F)).length = F.length - k := by
          simpa using h3
        have ht : List.take (F.length - k)
            (List.take (F.length - k) (List.drop 4 F) ++
              List.replicate (len - (List.take (F.length - k) (List.drop 4 F)).length) 0) =
            List.take (F.length - k) (List.drop 4 F) := by
          rw [List.take_append_of_le_length (by omega), List.take_take, min_self]
        rw [ht]
        split_ifs <;> simp [h3']

/-! ### Result and last error -/

theorem enqueueLoop_consistent (q : PersistentQueue) (fs : FS) (s : Nat) (d : List Byte)
    (l todo i : Nat) :
    ((enqueueLoop q fs s d l todo i).1 = true ↔
      (enqueueLoop q fs s d l todo i).2.1.m_lastError = PQ_ERROR_OK) := by
  induction todo generalizing i with
  | zero => simp [enqueueLoop]
  | succ t ih =>
    rw [enqueueLoop]
    split
    · split <;> simp
    · exact ih (i + 1)

theorem purgeLoop_consistent (pfx : Str) (magic : Nat) (fc : Bool) (es : List Entry)
    (st : PurgeState) (h : st.result = true ↔ st.m_lastError = PQ_ERROR_OK) :
    ((purgeLoop pfx magic fc es st).result = true ↔
      (purgeLoop pfx magic fc es st).m_lastError = PQ_ERROR_OK) := by
  induction es generalizing st with
  | nil => simpa [purgeLoop] using h
  | cons e rest ih =>
    rw [purgeLoop]
    split
    · exact ih st h
    · split
      · exact h
      · simp only
        split_ifs <;> first | exact ih _ h | exact ih _ (by simp)

/-! ### Removal -/

theorem fsRemove_refused (fs : FS) (pfx fp : Str) (h : fp ∈ fs.denyRemove) :
    fsRemove fs pfx fp = (false, fs) := by
  unfold fsRemove
  rw [if_pos h]

theorem fsRemove_first (fs : FS) (pfx fp : Str) (l1 l2 : List Entry) (e : Entry)
    (h : fp ∉ fs.denyRemove) (hent : fs.entries = l1 ++ e :: l2)
    (he : pathOf fs pfx e = fp) (hl1 : ∀ x ∈ l1, pathOf fs pfx x ≠ fp) :
    fsRemove fs pfx fp = (true, { fs with entries := l1 ++ l2 }) := by
  unfold fsRemove
  rw [if_neg h]
  have hany : fs.entries.any (fun x => pathOf fs pfx x == fp) = true := by
    rw [hent, List.any_eq_true]
    exact ⟨e, by simp, by simp [he]⟩
  rw [if_pos hany, hent, List.eraseP_append_right _ (by
    intro b hb
    simpa using hl1 b hb), List.eraseP_cons_of_pos (by simp [he])]

/-! ### The counter -/

theorem enqueueLoop_counter (q : PersistentQueue) (fs : FS) (s : Nat) (d : List Byte)
    (l todo i : Nat) : (enqueueLoop q fs s d l todo i).2.1.m_counter = q.m_counter := by
  induction todo generalizing i with
  | zero => simp [enqueueLoop]
  | succ t ih =>
    rw [enqueueLoop]
    split
    · split <;> simp
    · exact ih (i + 1)

theorem purge_counter (q : PersistentQueue) (fs : FS) (fc : Bool) :
    (purge q fs fc).2.1.m_counter = q.m_counter := by
  unfold purge checkInitialized
  cases q.m_initialized <;> cases fs.isDirectory <;> simp

theorem findNextMessage_max_setErr (q : PersistentQueue) (e : pqError_t) (fs : FS) (fc : Bool)
    (o : pqDequeueOrder_t) :
    (findNextMessage { q with m_lastError := e } fs fc o).2.m_current_max =
      (findNextMessage q fs fc o).2.m_current_max := by
  unfold findNextMessage checkInitialized
  cases q.m_initialized <;> cases fs.isDirectory <;> simp

/-! ### What `enqueue` writes -/

theorem enqueueLoop_true (q : PersistentQueue) (fs : FS) (s : Nat) (d : List Byte)
    (l todo i : Nat) (h : (enqueueLoop q fs s d l todo i).1 = true) :
    ∃ j, i ≤ j ∧ j < i + todo ∧
      (∀ k, i ≤ k → k < j → fsExists fs q.m_prefix (fileName q.m_prefix s k) = true) ∧
      fsExists fs q.m_prefix (fileName q.m_prefix s j) = false ∧
      fsCreate fs q.m_prefix (fileName q.m_prefix s j) (fileBody q d l) =
        some (enqueueLoop q fs s d l todo i).2.2 := by
  induction todo generalizing i with
  | zero => simp [enqueueLoop] at h
  | succ t ih =>
    rw [enqueueLoop] at h ⊢
    by_cases hex : fsExists fs q.m_prefix (fileName q.m_prefix s i) = true
    · simp only [hex, Bool.not_true, Bool.false_eq_true, if_false] at h ⊢
      obtain ⟨j, h1, h2, h3, h4, h5⟩ := ih (i + 1) h
      refine ⟨j, by omega, by omega, ?_, h4, h5⟩
      intro k hk1 hk2
      by_cases hki : k = i
      · rw [hki]; exact hex
      · exact h3 k (by omega) hk2
    · simp only [Bool.not_eq_true] at hex
      simp only [hex, Bool.not_false, if_true] at h ⊢
      cases hc : fsCreate fs q.m_prefix (fileName q.m_prefix s i) (fileBody q d l) with
      | none => simp [hc] at h
      | some fs1 =>
        refine ⟨i, le_refl _, by omega, ?_, hex, ?_⟩
        · intro k hk1 hk2; omega
        · simp [hc]

theorem fsCreate_shape {fs fs1 : FS} {pfx fn : Str} {b : List Byte}
    (h : fsCreate fs pfx fn b = some fs1) :
    fs1 = { fs with entries := fs.entries ++
        [⟨if fs.pathNames then fn else fn.drop (pfx.length + 1), false, fsStored fs fn b⟩] } ∨
    fs1 = { fs with elsewhere := fs.elsewhere ++ [(fn, fsStored fs fn b)] } := by
  unfold fsCreate at h
  split at h
  · simp at h
  · split at h
    · left; simpa using h.symm
    · right; simpa using h.symm

theorem written_sublist (lost : List Nat) (i : Nat) (bytes : List Byte) :
    (written lost i bytes).Sublist bytes := by
  induction bytes generalizing i with
  | nil => exact List.Sublist.slnil
  | cons b bs ih =>
    rw [written]
    split
    · exact (ih (i + 1)).cons b
    · exact (ih (i + 1)).cons₂ b

theorem written_complete (lost : List Nat) (i : Nat) (bytes : List Byte)
    (h : ∀ j ∈ lost, j < i ∨ i + bytes.length ≤ j) : written lost i bytes = bytes := by
  induction bytes generalizing i with
  | nil => rfl
  | cons b bs ih =>
    rw [written]
    have hi : i ∉ lost := by
      intro hm
      have := h i hm
      simp only [List.length_cons] at this
      omega
    rw [if_neg hi, ih (i + 1)]
    intro j hj
    have := h j hj
    simp only [List.length_cons] at this
    omega

theorem fsStored_sublist (fs : FS) (fn : Str) (bytes : List Byte) :
    (fsStored fs fn bytes).Sublist bytes := by
  unfold fsStored
  split
  · exact List.Sublist.refl _
  · exact written_sublist _ _ _

theorem fsStored_complete (fs : FS) (fn : Str) (bytes : List Byte)
    (h : ∀ lost, fs.unwritten.lookup fn = some lost → ∀ j ∈ lost, bytes.length ≤ j) :
    fsStored fs fn bytes = bytes := by
  unfold fsStored
  split
  · rfl
  · next lost hl =>
    apply written_complete
    intro j hj
    right
    have := h lost hl j hj
    omega

/-- In the range where the formatted name fits and `%d` prints the number unsigned (a
prefix of at most 16 characters, a number below `2^31`) the name is the intended one. -/
theorem fileName_in_range {pfx : Str} {s i : Nat} (hp : pfx.length ≤ 16)
    (hs : s < 2147483648) (hi : i < 100) : fileName pfx s i = expectedFileName pfx s i := by
  have h := @fileName_fit pfx s i hi
    (by
      simp only [List.length_append, List.length_cons, (toInt_fmt010d hs).1,
        fixedDigits_length, fmt02d_length (show 0 < 100 by norm_num), PQ_MAX_FILENAME_SIZE]
      omega)
  rw [h, (toInt_fmt010d hs).1]
  simp [expectedFileName, fmt02d, hi]

/-! ### The fast scan -/

theorem findLoop_not_accepted (pfx : Str) (magic : Nat) (ord : pqDequeueOrder_t) (e : Entry)
    (rest : List Entry) (st : Scan) (h : scanAccepts pfx e = false) :
    findLoop pfx magic true ord (e :: rest) st = findLoop pfx magic true ord rest st := by
  rw [findLoop]
  cases hd : e.isDir
  · simp only [scanAccepts, scanFileNumber, scanFn, hd, Bool.not_false, Bool.true_and,
      Bool.not_eq_false_eq_eq_true] at h
    simp [h]
  · simp

theorem findLoop_oldest_step (pfx : Str) (magic : Nat) (e : Entry) (rest : List Entry)
    (st : Scan) (h : scanAccepts pfx e = true) :
    findLoop pfx magic true PQ_DEQUEUE_OLDEST (e :: rest) st =
      if scanFileNumber pfx e < st.soughtNumber then
        findLoop pfx magic true PQ_DEQUEUE_OLDEST rest
          { st with soughtNumber := scanFileNumber pfx e, soughtFileName := e.name }
      else findLoop pfx magic true PQ_DEQUEUE_OLDEST rest st := by
  rw [findLoop]
  simp only [scanAccepts, scanFileNumber, scanFn, Bool.and_eq_true, Bool.not_eq_true_eq_eq_false]
    at h
  simp only [h.1, h.2, Bool.false_eq_true, if_false, Bool.not_true, Bool.false_and, scanFileNumber,
    scanFn]

theorem findLoop_latest_step (pfx : Str) (magic : Nat) (e : Entry) (rest : List Entry)
    (st : Scan) (h : scanAccepts pfx e = true) :
    findLoop pfx magic true PQ_DEQUEUE_LATEST (e :: rest) st =
      if scanFileNumber pfx e > st.soughtNumber then
        findLoop pfx magic true PQ_DEQUEUE_LATEST rest
          { soughtNumber := scanFileNumber pfx e, m_current_max := scanFileNumber pfx e,
            soughtFileName := e.name }
      else findLoop pfx magic true PQ_DEQUEUE_LATEST rest st := by
  rw [findLoop]
  simp only [scanAccepts, scanFileNumber, scanFn, Bool.and_eq_true, Bool.not_eq_true_eq_eq_false]
    at h
  simp only [h.1, h.2, Bool.false_eq_true, if_false, Bool.not_true, Bool.false_and, scanFileNumber,
    scanFn]

theorem findLoop_default (pfx : Str) (magic : Nat) (l : List Entry) (st : Scan) :
    findLoop pfx magic true PQ_DEQUEUE_DEFAULT l st = st := by
  induction l with
  | nil => rfl
  | cons e rest ih =>
    rw [findLoop]
    simp only [ih, Bool.not_true, Bool.false_and, Bool.false_eq_true, if_false, ite_self]

theorem findLoop_filter (pfx : Str) (magic : Nat) (ord : pqDequeueOrder_t) (l : List Entry)
    (st : Scan) :
    findLoop pfx magic true ord (l.filter (scanAccepts pfx)) st =
      findLoop pfx magic true ord l st := by
  induction l generalizing st with
  | nil => rfl
  | cons e rest ih =>
    cases h : scanAccepts pfx e
    · rw [List.filter_cons_of_neg (by simp [h]), findLoop_not_accepted _ _ _ _ _ _ h, ih]
    · rw [List.filter_cons_of_pos h]
      cases ord with
      | PQ_DEQUEUE_DEFAULT => rw [findLoop_default, findLoop_default]
      | PQ_DEQUEUE_OLDEST =>
        rw [findLoop_oldest_step _ _ _ _ _ h, findLoop_oldest_step _ _ _ _ _ h, ih, ih]
      | PQ_DEQUEUE_LATEST =>
        rw [findLoop_latest_step _ _ _ _ _ h, findLoop_latest_step _ _ _ _ _ h, ih, ih]

theorem findLoop_oldest (pfx : Str) (magic : Nat) (l : List Entry) (st : Scan) :
    ((∀ e ∈ l, scanAccepts pfx e = true → st.soughtNumber ≤ scanFileNumber pfx e) ∧
      findLoop pfx magic true PQ_DEQUEUE_OLDEST l st = st) ∨
    (∃ l1 e l2, l = l1 ++ e :: l2 ∧ scanAccepts pfx e = true ∧
      scanFileNumber pfx e < st.soughtNumber ∧
      (∀ x ∈ l1, scanAccepts pfx x = true → scanFileNumber pfx e < scanFileNumber pfx x) ∧
      (∀ x ∈ l2, scanAccepts pfx x = true → scanFileNumber pfx e ≤ scanFileNumber pfx x) ∧
      findLoop pfx magic true PQ_DEQUEUE_OLDEST l st =
        { st with soughtNumber := scanFileNumber pfx e, soughtFileName := e.name }) := by
  induction l generalizing st with
  | nil => left; exact ⟨by simp, rfl⟩
  | cons e rest ih =>
    cases h : scanAccepts pfx e
    · rw [findLoop_not_accepted _ _ _ _ _ _ h]
      rcases ih st with ⟨h1, h2⟩ | ⟨l1, e1, l2, h1, h2, h3, h4, h5, h6⟩
      · left
        refine ⟨?_, h2⟩
        intro x hx hc
        rcases List.mem_cons.1 hx with rfl | hx
        · rw [h] at hc; cases hc
        · exact h1 x hx hc
      · right
        refine ⟨e :: l1, e1, l2, by rw [h1]; rfl, h2, h3, ?_, h5, h6⟩
        intro x hx hc
        rcases List.mem_cons.1 hx with rfl | hx
        · rw [h] at hc; cases hc
        · exact h4 x hx hc
    · rw [findLoop_oldest_step _ _ _ _ _ h]
      by_cases hlt : scanFileNumber pfx e < st.soughtNumber
      · rw [if_pos hlt]
        rcases ih { st with soughtNumber := scanFileNumber pfx e, soughtFileName := e.name } with
          ⟨h1, h2⟩ | ⟨l1, e1, l2, h1, h2, h3, h4, h5, h6⟩
        · right
          exact ⟨[], e, rest, rfl, h, hlt, by simp, h1, h2⟩
        · right
          refine ⟨e :: l1, e1, l2, by rw [h1]; rfl, h2, lt_trans h3 hlt, ?_, h5, h6⟩
          intro x hx hc
          rcases List.mem_cons.1 hx with rfl | hx
          · exact h3
          · exact h4 x hx hc
      · rw [if_neg hlt]
        rcases ih st with ⟨h1, h2⟩ | ⟨l1, e1, l2, h1, h2, h3, h4, h5, h6⟩
        · left
          refine ⟨?_, h2⟩
          intro x hx hc
          rcases List.mem_cons.1 hx with rfl | hx
          · omega
          · exact h1 x hx hc
        · right
          refine ⟨e :: l1, e1, l2, by rw [h1]; rfl, h2, h3, ?_, h5, h6⟩
          intro x hx hc
          rcases List.mem_cons.1 hx with rfl | hx
          · omega
          · exact h4 x hx hc

theorem findLoop_latest (pfx : Str) (magic : Nat) (l : List Entry) (st : Scan) :
    ((∀ e ∈ l, scanAccepts pfx e = true → scanFileNumber pfx e ≤ st.soughtNumber) ∧
      findLoop pfx magic true PQ_DEQUEUE_LATEST l st = st) ∨
    (∃ l1 e l2, l = l1 ++ e :: l2 ∧ scanAccepts pfx e = true ∧
      st.soughtNumber < scanFileNumber pfx e ∧
      (∀ x ∈ l1, scanAccepts pfx x = true → scanFileNumber pfx x < scanFileNumber pfx e) ∧
      (∀ x ∈ l2, scanAccepts pfx x = true → scanFileNumber pfx x ≤ scanFileNumber pfx e) ∧
      findLoop pfx magic true PQ_DEQUEUE_LATEST l st =
        { soughtNumber := scanFileNumber pfx e, m_current_max := scanFileNumber pfx e,
          soughtFileName := e.name }) := by
  induction l generalizing st with
  | nil => left; exact ⟨by simp, rfl⟩
  | cons e rest ih =>
    cases h : scanAccepts pfx e
    · rw [findLoop_not_accepted _ _ _ _ _ _ h]
      rcases ih st with ⟨h1, h2⟩ | ⟨l1, e1, l2, h1, h2, h3, h4, h5, h6⟩
      · left
        refine ⟨?_, h2⟩
        intro x hx hc
        rcases List.mem_cons.1 hx with rfl | hx
        · rw [h] at hc; cases hc
        · exact h1 x hx hc
      · right
        refine ⟨e :: l1, e1, l2, by rw [h1]; rfl, h2, h3, ?_, h5, h6⟩
        intro x hx hc
        rcases List.mem_cons.1 hx with rfl | hx
        · rw [h] at hc; cases hc
        · exact h4 x hx hc
    · rw [findLoop_latest_step _ _ _ _ _ h]
      by_cases hlt : scanFileNumber pfx e > st.soughtNumber
      · rw [if_pos hlt]
        rcases ih ⟨scanFileNumber pfx e, e.name, scanFileNumber pfx e⟩ with
          ⟨h1, h2⟩ | ⟨l1, e1, l2, h1, h2, h3, h4, h5, h6⟩
        · right
          exact ⟨[], e, rest, rfl, h, hlt, by simp, h1, h2⟩
        · right
          refine ⟨e :: l1, e1, l2, by rw [h1]; rfl, h2, lt_trans hlt h3, ?_, h5, h6⟩
          intro x hx hc
          rcases List.mem_cons.1 hx with rfl | hx
          · exact h3
          · exact h4 x hx hc
      · rw [if_neg hlt]
        rcases ih st with ⟨h1, h2⟩ | ⟨l1, e1, l2, h1, h2, h3, h4, h5, h6⟩
        · left
          refine ⟨?_, h2⟩
          intro x hx hc
          rcases List.mem_cons.1 hx with rfl | hx
          · omega
          · exact h1 x hx hc
        · right
          refine ⟨e :: l1, e1, l2, by rw [h1]; rfl, h2, h3, ?_, h5, h6⟩
          intro x hx hc
          rcases List.mem_cons.1 hx with rfl | hx
          · omega
          · exact h4 x hx hc

/-- The fast scan in terms of its own locals: for an initialised queue whose prefix is a
directory, `findNextMessage(true, order)` gives the same result as on the listing restricted
to the children it compares.  With the effective order OLDEST it returns the name of the
first child, in enumeration order, whose `fileNumber` is the least among those compared,
if that number is below `UINT32_MAX`, and the empty string otherwise; with LATEST the first
child whose `fileNumber` is the greatest, if that number is above 1, and then
`m_current_max` is that number, and the empty string otherwise; with the effective order
DEFAULT the empty string.  Nothing else of the object changes. -/
theorem findNextMessage_fast_scan (q : PersistentQueue) (fs : FS) (order : pqDequeueOrder_t)
    (hinit : q.m_initialized = true) (hdir : fs.isDirectory = true) :
    findNextMessage q fs true order =
      findNextMessage q { fs with entries := fs.entries.filter (scanAccepts q.m_prefix) }
        true order ∧
    ((if order = PQ_DEQUEUE_DEFAULT then q.m_order else order) = PQ_DEQUEUE_OLDEST →
      ((∀ e ∈ fs.entries, scanAccepts q.m_prefix e = true →
          UINT32_MAX ≤ scanFileNumber q.m_prefix e) ∧
        findNextMessage q fs true order = ([], q)) ∨
      (∃ l1 e l2, fs.entries = l1 ++ e :: l2 ∧ scanAccepts q.m_prefix e = true ∧
        scanFileNumber q.m_prefix e < UINT32_MAX ∧
        (∀ x ∈ l1, scanAccepts q.m_prefix x = true →
          scanFileNumber q.m_prefix e < scanFileNumber q.m_prefix x) ∧
        (∀ x ∈ l2, scanAccepts q.m_prefix x = true →
          scanFileNumber q.m_prefix e ≤ scanFileNumber q.m_prefix x) ∧
        findNextMessage q fs true order = (e.name, q))) ∧
    ((if order = PQ_DEQUEUE_DEFAULT then q.m_order else order) = PQ_DEQUEUE_LATEST →
      ((∀ e ∈ fs.entries, scanAccepts q.m_prefix e = true →
          scanFileNumber q.m_prefix e ≤ 1) ∧
        findNextMessage q fs true order = ([], q)) ∨
      (∃ l1 e l2, fs.entries = l1 ++ e :: l2 ∧ scanAccepts q.m_prefix e = true ∧
        1 < scanFileNumber q.m_prefix e ∧
        (∀ x ∈ l1, scanAccepts q.m_prefix x = true →
          scanFileNumber q.m_prefix x < scanFileNumber q.m_prefix e) ∧
        (∀ x ∈ l2, scanAccepts q.m_prefix x = true →
          scanFileNumber q.m_prefix x ≤ scanFileNumber q.m_prefix e) ∧
        findNextMessage q fs true order =
          (e.name, { q with m_current_max := scanFileNumber q.m_prefix e }))) ∧
    ((if order = PQ_DEQUEUE_DEFAULT then q.m_order else order) = PQ_DEQUEUE_DEFAULT →
      findNextMessage q fs true order = ([], q)) := by
  have h1 : checkInitialized q = (true, q) := by simp [checkInitialized, hinit]
  have hq : ({ q with m_current_max := q.m_current_max } : PersistentQueue) = q := rfl
  unfold findNextMessage
  rw [h1]
  simp only [hdir, Bool.not_true, Bool.false_eq_true, if_false]
  refine ⟨by rw [findLoop_filter], ?_, ?_, ?_⟩
  · intro ho
    rw [ho]
    simp only [if_true]
    rcases findLoop_oldest q.m_prefix q.m_magic fs.entries
        ⟨UINT32_MAX, [], q.m_current_max⟩ with
      ⟨h2, h3⟩ | ⟨l1, e, l2, h2, h3, h4, h5, h6, h7⟩
    · left
      exact ⟨h2, by rw [h3]⟩
    · right
      exact ⟨l1, e, l2, h2, h3, h4, h5, h6, by rw [h7]⟩
  · intro ho
    rw [ho]
    simp only [reduceCtorEq, if_false]
    rcases findLoop_latest q.m_prefix q.m_magic fs.entries
        ⟨1, [], q.m_current_max⟩ with ⟨h2, h3⟩ | ⟨l1, e, l2, h2, h3, h4, h5, h6, h7⟩
    · left
      exact ⟨h2, by rw [h3]⟩
    · right
      exact ⟨l1, e, l2, h2, h3, h4, h5, h6, by rw [h7]⟩
  · intro ho
    rw [ho, findLoop_default]

theorem scanFn_full_paths (fs : FS) (pfx : Str) (e : Entry) (hpath : fs.pathNames = true) :
    scanFn pfx e = sequenceField fs pfx e := by
  simp [scanFn, sequenceField, baseName, hpath, substring]

/-- Selection in fast mode where `file.name()` returns full paths: there the 10-character
sequence field of a child is what the scan decodes, and `findNextMessage(true, order)` of
an initialised queue whose prefix is a directory returns, under OLDEST, the name of the
first child whose sequence number is the least among the children that have one, if that
number is below `UINT32_MAX`; under LATEST the first child whose sequence number is the
greatest, if that number is above 1, setting `m_current_max` to it; and the empty string
in every other case. -/
theorem fast_selection_full_paths (q : PersistentQueue) (fs : FS) (order : pqDequeueOrder_t)
    (hinit : q.m_initialized = true) (hdir : fs.isDirectory = true)
    (hpath : fs.pathNames = true) :
    findNextMessage q fs true order =
      findNextMessage q
        { fs with entries := fs.entries.filter (hasSequenceNumber fs q.m_prefix) }
        true order ∧
    ((if order = PQ_DEQUEUE_DEFAULT then q.m_order else order) = PQ_DEQUEUE_OLDEST →
      ((∀ e ∈ fs.entries, hasSequenceNumber fs q.m_prefix e = true →
          UINT32_MAX ≤ sequenceNumber fs q.m_prefix e) ∧
        findNextMessage q fs true order = ([], q)) ∨
      (∃ l1 e l2, fs.entries = l1 ++ e :: l2 ∧ hasSequenceNumber fs q.m_prefix e = true ∧
        sequenceNumber fs q.m_prefix e < UINT32_MAX ∧
        (∀ x ∈ l1, hasSequenceNumber fs q.m_prefix x = true →
          sequenceNumber fs q.m_prefix e < sequenceNumber fs q.m_prefix x) ∧
        (∀ x ∈ l2, hasSequenceNumber fs q.m_prefix x = true →
          sequenceNumber fs q.m_prefix e ≤ sequenceNumber fs q.m_prefix x) ∧
        findNextMessage q fs true order = (e.name, q))) ∧
    ((if order = PQ_DEQUEUE_DEFAULT then q.m_order else order) = PQ_DEQUEUE_LATEST →
      ((∀ e ∈ fs.entries, hasSequenceNumber fs q.m_prefix e = true →
          sequenceNumber fs q.m_prefix e ≤ 1) ∧
        findNextMessage q fs true order = ([], q)) ∨
      (∃ l1 e l2, fs.entries = l1 ++ e :: l2 ∧ hasSequenceNumber fs q.m_prefix e = true ∧
        1 < sequenceNumber fs q.m_prefix e ∧
        (∀ x ∈ l1, hasSequenceNumber fs q.m_prefix x = true →
          sequenceNumber fs q.m_prefix x < sequenceNumber fs q.m_prefix e) ∧
        (∀ x ∈ l2, hasSequenceNumber fs q.m_prefix x = true →
          sequenceNumber fs q.m_prefix x ≤ sequenceNumber fs q.m_prefix e) ∧
        findNextMessage q fs true order =
          (e.name, { q with m_current_max := sequenceNumber fs q.m_prefix e }))) ∧
    ((if order = PQ_DEQUEUE_DEFAULT then q.m_order else order) = PQ_DEQUEUE_DEFAULT →
      findNextMessage q fs true order = ([], q)) := by
  have hn : scanFileNumber q.m_prefix = sequenceNumber fs q.m_prefix := by
    funext e
    simp only [scanFileNumber, sequenceNumber, scanFn_full_paths fs _ e hpath]
  have hc : scanAccepts q.m_prefix = hasSequenceNumber fs q.m_prefix := by
    funext e
    simp only [scanAccepts, hasSequenceNumber, scanFn_full_paths fs _ e hpath, hn]
  have h := findNextMessage_fast_scan q fs order hinit hdir
  rw [hn, hc] at h
  exact h

/-! ### The emptiness check -/

theorem isQueueEmptyLoop_fast (magic : Nat) (l : List Entry) :
    isQueueEmptyLoop magic true l = true ↔ l = [] := by
  cases l <;> simp [isQueueEmptyLoop]

theorem isQueueEmptyLoop_full (magic : Nat) (l : List Entry) :
    isQueueEmptyLoop magic false l = true ↔ ∀ e ∈ l, rd32 e.content ≠ magic := by
  induction l with
  | nil => simp [isQueueEmptyLoop]
  | cons e rest ih =>
    rw [isQueueEmptyLoop]
    by_cases h : rd32 e.content = magic
    · simp [h]
    · simp [h, ih]

/-- The four bytes a read delivers from a file of at least four bytes are the bytes of the
value read. -/
theorem le32_rd32 (bs : List Byte) (h : 4 ≤ bs.length) : le32 (rd32 bs) = bs.take 4 := by
  match bs, h with
  | a :: b :: c :: d :: t, _ =>
    have ha := a.isLt
    have hb := b.isLt
    have hc := c.isLt
    have hd := d.isLt
    simp only [rd32, le32, List.take, List.reverse_cons, List.reverse_nil, List.nil_append,
      List.cons_append, List.foldl_cons, List.foldl_nil, List.cons.injEq, and_true]
    refine ⟨?_, ?_, ?_, ?_⟩ <;> apply Fin.ext <;> simp [Fin.ofNat] <;> omega

theorem rd32_take (bs : List Byte) : rd32 (bs.take 4) = rd32 bs := by
  simp [rd32, List.take_take]

/-! ## The claims -/

/-- C1, at a failing input: on a newly constructed `PQ_DEQUEUE_LATEST` queue initialised
over an empty directory, `enqueue(0, {1,2,3}, 3)` returns true and stores the message under
the counter value 1, but the next `dequeue` into a three-byte buffer returns false with
`PQ_ERROR_QUEUE_EMPTY`, delivers nothing and leaves the file in the directory. -/
theorem roundtrip_latest_first_message :
    latestFirst.1 = true ∧
    latestFirst.2.2.entries.map (fun e => e.name) = ["/q/0000000001-00".toList] ∧
    (dequeue latestFirst.2.1 latestFirst.2.2 (some [0, 0, 0]) 3 0 true).ret = false ∧
    (dequeue latestFirst.2.1 latestFirst.2.2 (some [0, 0, 0]) 3 0 true).q.m_lastError =
      PQ_ERROR_QUEUE_EMPTY ∧
    (dequeue latestFirst.2.1 latestFirst.2.2 (some [0, 0, 0]) 3 0 true).data =
      some [0, 0, 0] ∧
    (dequeue latestFirst.2.1 latestFirst.2.2 (some [0, 0, 0]) 3 0 true).fs =
      latestFirst.2.2 := by
  decide

/-- C2 (corruption detection): with CRCs enabled, changing one byte of a payload changes
`pq_crc32`, for the default register `0xffffffff` and for every 32-bit initial register;
and when the file that selection picks holds what `enqueue` wrote for `P`
except that payload byte `i` was replaced by a different byte `b`, both `dequeue` variants
(with a non-null buffer of at least `|P|` bytes, respectively with a successful `malloc`)
return false with `PQ_ERROR_BAD_CRC` and leave the filesystem, hence the file, as it
was. -/
theorem corruption_detected (q : PersistentQueue) (fs : FS) (fc : Bool) (n : Str)
    (P : List Byte) (i : Nat) (b : Byte) (buf : List Byte) (len al : Nat)
    (data2 : Option (List Byte)) (len2 : Nat)
    (hm : q.m_magic < 4294967296) (hcrc : q.m_calcCRC = true)
    (hi : i < P.length) (hb : b ≠ P[i])
    (hsel : (findNextMessage q fs fc PQ_DEQUEUE_DEFAULT).1 = n) (hn : n ≠ [])
    (hfile : fsOpenRead fs q.m_prefix (fullPath q n) =
      some ((fileBody q P P.length).set (4 + i) b))
    (hlen : P.length ≤ len) :
    pq_crc32_default (P.set i b) ≠ pq_crc32_default P ∧
    (∀ c, c < 4294967296 → pq_crc32 (P.set i b) c ≠ pq_crc32 P c) ∧
    (dequeue q fs (some buf) len al fc).ret = false ∧
    (dequeue q fs (some buf) len al fc).q.m_lastError = PQ_ERROR_BAD_CRC ∧
    (dequeue q fs (some buf) len al fc).fs = fs ∧
    (dequeueAlloc q fs data2 len2 fc true).ret = false ∧
    (dequeueAlloc q fs data2 len2 fc true).q.m_lastError = PQ_ERROR_BAD_CRC ∧
    (dequeueAlloc q fs data2 len2 fc true).fs = fs := by
  have hne : pq_crc32_default (P.set i b) ≠ pq_crc32_default P :=
    pq_crc32_set_ne P i hi b hb (by norm_num)
  have hc : pq_crc32_default P < 4294967296 := pq_crc32_default_lt P
  rw [fileBody_set q P i hi b] at hfile
  obtain ⟨q1, hq1, hd⟩ := dequeue_selected hsel hn hfile (some buf) len al
  obtain ⟨q2, hq2, ha⟩ := dequeueAlloc_selected hsel hn hfile data2 len2 true
  have hm1 : q1.m_magic < 4294967296 := by rw [hq1.2.1]; exact hm
  have hm2 : q2.m_magic < 4294967296 := by rw [hq2.2.1]; exact hm
  have hc1 : q1.m_calcCRC = true := hq1.2.2.1.trans hcrc
  have hc2 : q2.m_calcCRC = true := hq2.2.2.1.trans hcrc
  have hne2 : (pq_crc32_default P != pq_crc32_default (P.set i b)) = true := by
    rw [bne_iff_ne]; exact fun h => hne h.symm
  have hl : ¬ len < (P.set i b).length := by rw [List.length_set]; omega
  have hF1 : (le32 q.m_magic ++ P.set i b ++
      (if q.m_calcCRC then le32 (pq_crc32_default P) else [])) =
      le32 q1.m_magic ++ P.set i b ++
        (if q1.m_calcCRC then le32 (pq_crc32_default P) else []) := by
    rw [hq1.2.1, hq1.2.2.1]
  have hF2 : (le32 q.m_magic ++ P.set i b ++
      (if q.m_calcCRC then le32 (pq_crc32_default P) else [])) =
      le32 q2.m_magic ++ P.set i b ++
        (if q2.m_calcCRC then le32 (pq_crc32_default P) else []) := by
    rw [hq2.2.1, hq2.2.2.1]
  have r1 : dequeue q fs (some buf) len al fc =
      ⟨false, { q1 with m_lastError := PQ_ERROR_BAD_CRC }, fs,
        some (P.set i b ++ List.replicate (len - (P.set i b).length) 0),
        (P.set i b).length⟩ := by
    rw [hd, hF1, dequeueOpened_body q1 fs _ _ _ hm1 hc, if_neg hl]
    simp only [hc1, hne2, Bool.and_self, if_true]
  have r2 : dequeueAlloc q fs data2 len2 fc true =
      ⟨false, { q2 with m_lastError := PQ_ERROR_BAD_CRC }, fs, data2, len2⟩ := by
    rw [ha, hF2, dequeueAllocOpened_body q2 fs _ _ _ hm2 hc]
    simp only [hc2, hne2, Bool.and_self, if_true, Bool.not_true, Bool.false_eq_true, if_false]
  rw [r1, r2]
  exact ⟨hne, fun c hc0 => pq_crc32_set_ne P i hi b hb hc0, rfl, rfl, rfl, rfl, rfl, rfl⟩

/-- Instance of `corruption_detected`: the message `{1,2,3}` numbered 5 whose payload byte
1 was overwritten with `9`. -/
theorem corruption_detected_witness :
    (dequeue oneMessage.2.1 oneMessageCorrupted (some [0, 0, 0]) 3 0 true).ret = false ∧
    (dequeue oneMessage.2.1 oneMessageCorrupted (some [0, 0, 0]) 3 0 true).q.m_lastError =
      PQ_ERROR_BAD_CRC ∧
    (dequeue oneMessage.2.1 oneMessageCorrupted (some [0, 0, 0]) 3 0 true).fs =
      oneMessageCorrupted ∧
    (dequeueAlloc oneMessage.2.1 oneMessageCorrupted none 0 true true).ret = false ∧
    (dequeueAlloc oneMessage.2.1 oneMessageCorrupted none 0 true true).q.m_lastError =
      PQ_ERROR_BAD_CRC ∧
    (dequeueAlloc oneMessage.2.1 oneMessageCorrupted none 0 true true).fs =
      oneMessageCorrupted :=
  (corruption_detected oneMessage.2.1 oneMessageCorrupted true "/q/0000000005-00".toList
    [1, 2, 3] 1 9 [0, 0, 0] 3 0 none 0 (by decide) (by decide) (by decide) (by decide)
    (by decide) (by decide) (by decide) (by decide)).2.2

/-- C3, at failing inputs: on a `PQ_DEQUEUE_OLDEST` queue the message enqueued under the
sequence number 4294967295 is never selected (`dequeue` returns false with
`PQ_ERROR_QUEUE_EMPTY` and the file stays), and of the messages enqueued under 3000000000
and 4000000000 the one numbered 4000000000 is dequeued first. -/
theorem oldest_order_large_numbers :
    oldestMax.1 = true ∧
    oldestMax.2.2.entries.map (fun e => e.name) = ["/q/-000000001-00".toList] ∧
    (dequeue oldestMax.2.1 oldestMax.2.2 (some [0]) 1 0 true).ret = false ∧
    (dequeue oldestMax.2.1 oldestMax.2.2 (some [0]) 1 0 true).q.m_lastError =
      PQ_ERROR_QUEUE_EMPTY ∧
    (dequeue oldestMax.2.1 oldestMax.2.2 (some [0]) 1 0 true).fs = oldestMax.2.2 ∧
    oldestLarge.1 = true ∧
    oldestLarge.2.2.entries.map (fun e => e.name) =
      ["/q/-1294967296-00".toList, "/q/-294967296-00".toList] ∧
    (dequeue oldestLarge.2.1 oldestLarge.2.2 (some [0]) 1 0 true).ret = true ∧
    (dequeue oldestLarge.2.1 oldestLarge.2.2 (some [0]) 1 0 true).data = some [40] := by
  decide

/-- The three calls of `dequeue` after `enqueue` of 5, 1, 3 on a `PQ_DEQUEUE_OLDEST` queue
deliver the messages numbered 1, 3, 5 and empty the directory. -/
theorem oldest_order_513 :
    (dequeue513a PQ_DEQUEUE_OLDEST).data = some [10] ∧
    (dequeue513b PQ_DEQUEUE_OLDEST).data = some [30] ∧
    (dequeue513c PQ_DEQUEUE_OLDEST).data = some [50] ∧
    (dequeue513c PQ_DEQUEUE_OLDEST).ret = true ∧
    (dequeue513c PQ_DEQUEUE_OLDEST).fs.entries = [] := by
  decide

/-- C4, at the input the claim names: after `enqueue` of 5, 1, 3 on a `PQ_DEQUEUE_LATEST`
queue the first two calls of `dequeue` deliver the messages numbered 5 and 3, and the third
returns false with `PQ_ERROR_QUEUE_EMPTY` while the file numbered 1 is still stored. -/
theorem latest_order_513 :
    (enqueue513 PQ_DEQUEUE_LATEST).1 = true ∧
    (dequeue513a PQ_DEQUEUE_LATEST).ret = true ∧
    (dequeue513a PQ_DEQUEUE_LATEST).data = some [50] ∧
    (dequeue513b PQ_DEQUEUE_LATEST).ret = true ∧
    (dequeue513b PQ_DEQUEUE_LATEST).data = some [30] ∧
    (dequeue513c PQ_DEQUEUE_LATEST).ret = false ∧
    (dequeue513c PQ_DEQUEUE_LATEST).q.m_lastError = PQ_ERROR_QUEUE_EMPTY ∧
    (dequeue513c PQ_DEQUEUE_LATEST).fs.entries.map (fun e => e.name) =
      ["/q/0000000001-00".toList] := by
  decide

/-- C5 (collision bound): on an initialised queue whose formatted file names fit the
`snprintf` bound, for an explicit sequence number `0 < s < 2^32` none of whose 100 file
names exists (and none of which the filesystem refuses to create), the call number `j + 1`
(`j = 0, .., 99`) of consecutive `enqueue(s, ..)` calls returns true with `PQ_ERROR_OK`,
finds the names of all sub-indices below `j` existing and the name of sub-index `j` free,
and creates exactly that file, whose name is `prefix/<%010d of s>-<%02d of j>` untruncated;
call number 101 returns false with `PQ_ERROR_OUT_OF_SUBNUMBERS` and leaves the filesystem
as call number 100 left it. -/
theorem enqueue_collision_bound (q : PersistentQueue) (fs : FS) (s : Nat)
    (P : Nat → List Byte)
    (hinit : q.m_initialized = true) (hs0 : 0 < s) (hs : s < 4294967296)
    (hfit : (q.m_prefix ++ '/' :: (fmt010d s ++ '-' :: fmt02d 0)).length < PQ_MAX_FILENAME_SIZE)
    (hfree : ∀ i < 100, fsExists fs q.m_prefix (fileName q.m_prefix s i) = false)
    (hcreate : ∀ i < 100, fileName q.m_prefix s i ∉ fs.denyCreate) :
    (∀ j < 100,
      (enqueueMany q fs s P (j + 1)).1 = true ∧
      (enqueueMany q fs s P (j + 1)).2.1.m_lastError = PQ_ERROR_OK ∧
      (∀ i < j, fsExists (enqueueMany q fs s P j).2.2 q.m_prefix
        (fileName q.m_prefix s i) = true) ∧
      fsExists (enqueueMany q fs s P j).2.2 q.m_prefix (fileName q.m_prefix s j) = false ∧
      fsCreate (enqueueMany q fs s P j).2.2 q.m_prefix (fileName q.m_prefix s j)
        (fileBody q (P j) (P j).length) = some (enqueueMany q fs s P (j + 1)).2.2 ∧
      fileName q.m_prefix s j = q.m_prefix ++ '/' :: (fmt010d s ++ '-' :: fmt02d j)) ∧
    (enqueueMany q fs s P 101).1 = false ∧
    (enqueueMany q fs s P 101).2.1.m_lastError = PQ_ERROR_OUT_OF_SUBNUMBERS ∧
    (enqueueMany q fs s P 101).2.2 = (enqueueMany q fs s P 100).2.2 := by
  constructor
  · intro j hj
    obtain ⟨hc, hex, hd⟩ := enqueueMany_inv q fs s P hinit hs0 hs hfit hfree hcreate j (by omega)
    obtain ⟨fs1, hcr, he⟩ := enqueue_at (P j) (P j).length hc hinit hs0 hs hj hex
      (by rw [hd]; exact hcreate j hj)
    have hstep : enqueueMany q fs s P (j + 1) =
        (true, { (enqueueMany q fs s P j).2.1 with m_lastError := PQ_ERROR_OK }, fs1) := by
      rw [enqueueMany, he]
    rw [hstep]
    refine ⟨rfl, rfl, ?_, ?_, hcr, fileName_fit hj hfit⟩
    · intro i hi
      rw [hex i (by omega)]
      simpa using hi
    · rw [hex j hj]
      simp
  · obtain ⟨hc, hex, _⟩ := enqueueMany_inv q fs s P hinit hs0 hs hfit hfree hcreate 100
      (le_refl _)
    have hfull := enqueue_full (P 100) (P 100).length hc hinit hs0 hs
      (fun i hi => by rw [hex i hi]; simpa using hi)
    have hstep : enqueueMany q fs s P (100 + 1) =
        (false, { (enqueueMany q fs s P 100).2.1 with
          m_lastError := PQ_ERROR_OUT_OF_SUBNUMBERS }, (enqueueMany q fs s P 100).2.2) := by
      rw [enqueueMany, hfull]
    have e : (101 : Nat) = 100 + 1 := rfl
    rw [e, hstep]
    simp only [and_self]

/-- Instance of `enqueue_collision_bound`: 101 calls `enqueue(7, {1}, 1)` on a fresh queue
over an empty directory. -/
theorem enqueue_collision_bound_witness :
    (enqueueMany (freshQueue PQ_DEFAULT_MN PQ_DEQUEUE_OLDEST true) emptyDir 7
      (fun _ => [1]) 1).1 = true ∧
    (enqueueMany (freshQueue PQ_DEFAULT_MN PQ_DEQUEUE_OLDEST true) emptyDir 7
      (fun _ => [1]) 100).1 = true ∧
    fileName ['/', 'q'] 7 99 = "/q/0000000007-99".toList ∧
    (enqueueMany (freshQueue PQ_DEFAULT_MN PQ_DEQUEUE_OLDEST true) emptyDir 7
      (fun _ => [1]) 101).1 = false ∧
    (enqueueMany (freshQueue PQ_DEFAULT_MN PQ_DEQUEUE_OLDEST true) emptyDir 7
      (fun _ => [1]) 101).2.1.m_lastError = PQ_ERROR_OUT_OF_SUBNUMBERS :=
  have h := enqueue_collision_bound (freshQueue PQ_DEFAULT_MN PQ_DEQUEUE_OLDEST true) emptyDir
    7 (fun _ => [1]) (by decide) (by decide) (by decide) (by decide) (fun _ _ => rfl)
    (fun _ _ => List.not_mem_nil _)
  ⟨(h.1 0 (by decide)).1, (h.1 99 (by decide)).1, by decide, h.2.1, h.2.2.1⟩

/-- C7, at the failing input N = 1: after one auto-numbered `enqueue` the directory holds
the file numbered 1; a new object calling `begin` on it ends with `m_counter` one above
whatever its unassigned member `m_current_max` held (1 for the value 0, 42 for the value
41) instead of 2, and with the value 0 its next auto-numbered `enqueue` reuses the number 1
under sub-index 01. -/
theorem watermark_after_one_enqueue :
    oneAutoEnqueue.entries.map (fun e => e.name) = ["/q/0000000001-00".toList] ∧
    (restarted 0).m_counter = 1 ∧
    (restarted 41).m_counter = 42 ∧
    (enqueue (restarted 0) oneAutoEnqueue 0 [51] 1).2.2.entries.map (fun e => e.name) =
      ["/q/0000000001-00".toList, "/q/0000000001-01".toList] := by
  decide

/-- C8, at a failing input: in a directory where a file with another magic number is
enumerated before a file of this queue, `isQueueEmpty(false)` reports a message, yet
`dequeue(.., fast_check = false)` returns false with `PQ_ERROR_QUEUE_EMPTY`; on the same
directory without the file of the other queue the same call returns true and delivers the
payload. -/
theorem tag_isolation_foreign_file_first :
    (isQueueEmpty sharedQueue sharedDir false).1 = false ∧
    (dequeue sharedQueue sharedDir (some [0]) 1 0 false).ret = false ∧
    (dequeue sharedQueue sharedDir (some [0]) 1 0 false).q.m_lastError =
      PQ_ERROR_QUEUE_EMPTY ∧
    (dequeue sharedQueue sharedDir (some [0]) 1 0 false).fs = sharedDir ∧
    (dequeue sharedQueue ownDir (some [0]) 1 0 false).ret = true ∧
    (dequeue sharedQueue ownDir (some [0]) 1 0 false).q.m_lastError = PQ_ERROR_OK ∧
    (dequeue sharedQueue ownDir (some [0]) 1 0 false).data = some [22] ∧
    (dequeue sharedQueue ownDir (some [0]) 1 0 false).fs.entries = [] := by
  decide

/-- C9, at a failing input: in a directory where a file with another magic number is
enumerated before a file of this queue, `purge(false)` returns true with last error
`PQ_ERROR_OK` and removes nothing, so the file carrying the magic number of the queue is
still there. -/
theorem purge_foreign_file_first :
    (purge sharedQueue sharedDir false).1 = true ∧
    (purge sharedQueue sharedDir false).2.1.m_lastError = PQ_ERROR_OK ∧
    (purge sharedQueue sharedDir false).2.2 = sharedDir ∧
    sharedDir.entries.map (fun e => decide (rd32 e.content = sharedQueue.m_magic)) =
      [false, true] := by
  decide

/-- C10 (not initialised): on an object whose `m_initialized` is false, which is the state
the constructor and `end()` leave, each of `enqueue`, `isQueueEmpty`, both `dequeue`
variants and `purge` returns false and changes nothing but `m_lastError`, which becomes
`PQ_ERROR_NOT_INITIALIZED`: the filesystem, the buffer of the caller, `*actual_len`, `*data`,
`*len` and the sequence counter keep their values, also for `enqueue(0, ..)`. -/
theorem not_initialized_rejects (q : PersistentQueue) (fs : FS) (name : Nat)
    (data : List Byte) (len : Nat) (fast_check : Bool) (buf : Option (List Byte))
    (cap actual_len : Nat) (pdata : Option (List Byte)) (plen : Nat) (mallocOk : Bool)
    (magic_num : Nat) (dq_order : pqDequeueOrder_t) (calculate_crc : Bool) (u : Nat)
    (q0 : PersistentQueue)
    (h : q.m_initialized = false) :
    (construct magic_num dq_order calculate_crc u).m_initialized = false ∧
    (end_ q0).m_initialized = false ∧
    enqueue q fs name data len =
      (false, { q with m_lastError := PQ_ERROR_NOT_INITIALIZED }, fs) ∧
    enqueue q fs 0 data len =
      (false, { q with m_lastError := PQ_ERROR_NOT_INITIALIZED }, fs) ∧
    isQueueEmpty q fs fast_check =
      (false, { q with m_lastError := PQ_ERROR_NOT_INITIALIZED }) ∧
    dequeue q fs buf cap actual_len fast_check =
      ⟨false, { q with m_lastError := PQ_ERROR_NOT_INITIALIZED }, fs, buf, actual_len⟩ ∧
    dequeueAlloc q fs pdata plen fast_check mallocOk =
      ⟨false, { q with m_lastError := PQ_ERROR_NOT_INITIALIZED }, fs, pdata, plen⟩ ∧
    purge q fs fast_check =
      (false, { q with m_lastError := PQ_ERROR_NOT_INITIALIZED }, fs) ∧
    ({ q with m_lastError := PQ_ERROR_NOT_INITIALIZED }).m_counter = q.m_counter := by
  refine ⟨rfl, rfl, ?_, ?_, ?_, ?_, ?_, ?_, rfl⟩ <;>
    simp [enqueue, isQueueEmpty, dequeue, dequeueAlloc, purge, checkInitialized, h]

/-- Instance of `not_initialized_rejects`: a constructed object on which `begin` was never
called, over a directory that holds a message. -/
theorem not_initialized_rejects_witness :
    (construct PQ_DEFAULT_MN PQ_DEQUEUE_OLDEST true 0).m_initialized = false ∧
    (enqueue (construct PQ_DEFAULT_MN PQ_DEQUEUE_OLDEST true 0) oneMessage.2.2 0 [1] 1).1 =
      false ∧
    (enqueue (construct PQ_DEFAULT_MN PQ_DEQUEUE_OLDEST true 0) oneMessage.2.2 0 [1]
      1).2.1.m_counter = 1 ∧
    (dequeue (construct PQ_DEFAULT_MN PQ_DEQUEUE_OLDEST true 0) oneMessage.2.2 (some [0, 0, 0])
      3 0 true).q.m_lastError = PQ_ERROR_NOT_INITIALIZED ∧
    (dequeue (end_ oneMessage.2.1) oneMessage.2.2 (some [0, 0, 0]) 3 0 true).fs =
      oneMessage.2.2 :=
  have h := not_initialized_rejects (construct PQ_DEFAULT_MN PQ_DEQUEUE_OLDEST true 0)
    oneMessage.2.2 0 [1] 1 true (some [0, 0, 0]) 3 0 none 0 true PQ_DEFAULT_MN
    PQ_DEQUEUE_OLDEST true 0 oneMessage.2.1 rfl
  ⟨h.1, by rw [h.2.2.1], by rw [h.2.2.1]; rfl, by rw [h.2.2.2.2.2.1], by decide⟩

/-- C11, counterexample: on a filesystem that refuses `remove` for the stored file, the
buffer variant of `dequeue` returns true with `PQ_ERROR_OK` and delivers the payload, and no
file is removed. -/
theorem dequeue_true_without_removal :
    (dequeue oneMessage.2.1 oneMessageLocked (some [0, 0, 0]) 3 0 true).ret = true ∧
    (dequeue oneMessage.2.1 oneMessageLocked (some [0, 0, 0]) 3 0 true).q.m_lastError =
      PQ_ERROR_OK ∧
    (dequeue oneMessage.2.1 oneMessageLocked (some [0, 0, 0]) 3 0 true).data =
      some [1, 2, 3] ∧
    (dequeue oneMessage.2.1 oneMessageLocked (some [0, 0, 0]) 3 0 true).fs =
      oneMessageLocked ∧
    oneMessageLocked.entries.map (fun e => e.name) = ["/q/0000000005-00".toList] := by
  decide

/-- C11 as amended (dequeue atomicity): a buffer-variant `dequeue` that returns false
leaves the filesystem unchanged, whatever the error; one that returns true has selected a
non-empty name and leaves the filesystem as `remove` of the path computed from that name
leaves it, the result of `remove` being ignored: when the filesystem refuses the removal
nothing changes, and when it carries the removal out for a path found in the directory,
exactly the first entry enumerated under that path is removed and every other entry and
every other part of the filesystem state is unchanged. -/
theorem dequeue_atomicity (q : PersistentQueue) (fs : FS) (data : Option (List Byte))
    (len al : Nat) (fc : Bool) :
    ((dequeue q fs data len al fc).ret = false → (dequeue q fs data len al fc).fs = fs) ∧
    ((dequeue q fs data len al fc).ret = true →
      (findNextMessage q fs fc PQ_DEQUEUE_DEFAULT).1 ≠ [] ∧
      (dequeue q fs data len al fc).fs =
        (fsRemove fs q.m_prefix
          (fullPath q (findNextMessage q fs fc PQ_DEQUEUE_DEFAULT).1)).2) ∧
    (∀ fp, fp ∈ fs.denyRemove → (fsRemove fs q.m_prefix fp).2 = fs) ∧
    (∀ fp l1 e l2, fp ∉ fs.denyRemove → fs.entries = l1 ++ e :: l2 →
      pathOf fs q.m_prefix e = fp → (∀ x ∈ l1, pathOf fs q.m_prefix x ≠ fp) →
      (fsRemove fs q.m_prefix fp).2 = { fs with entries := l1 ++ l2 }) := by
  refine ⟨?_, ?_, ?_, ?_⟩
  · rcases dequeue_both q fs data len al none 0 fc true with
      ⟨q1, _, _, hd, _⟩ | ⟨q1, F, _, _, _, _, hd, _⟩
    · rw [hd]; intro _; rfl
    · rw [hd]; exact (dequeueOpened_facts _ _ _ _ _ _ _).2.2.1
  · rcases dequeue_both q fs data len al none 0 fc true with
      ⟨q1, _, _, hd, _⟩ | ⟨q1, F, hn, _, hc, _, hd, _⟩
    · rw [hd]; intro h; simp at h
    · rw [hd]
      intro h
      refine ⟨hn, ?_⟩
      rw [(dequeueOpened_facts _ _ _ _ _ _ _).2.2.2 h, hc.1]
  · intro fp h
    rw [fsRemove_refused fs _ fp h]
  · intro fp l1 e l2 h hent he hl1
    rw [fsRemove_first fs _ fp l1 l2 e h hent he hl1]

/-- C12 (checksum definition): for every byte sequence and every initial register (in
particular every 32-bit one) the nibble-table function `pq_crc32` equals the register of
the bit-at-a-time reflected CRC-32 with polynomial `0xEDB88320` and no final inversion;
so `pq_crc32` with the default seed, xor-ed with `0xFFFFFFFF`, is the standard CRC-32. For
the ASCII bytes of "123456789" the standard CRC-32 is `0xCBF43926` and `pq_crc32` returns
`0x340BC6D9`. -/
theorem pq_crc32_is_bitwise_crc32 (d : List Byte) (c : Nat) :
    pq_crc32 d c = crcRegisterBitwise d c ∧
    pq_crc32_default d ^^^ 0xFFFFFFFF = crc32Standard d ∧
    crc32Standard checkBytes = 0xCBF43926 ∧
    pq_crc32_default checkBytes = 0x340BC6D9 := by
  have hstd : ∀ x, pq_crc32_default x ^^^ 0xFFFFFFFF = crc32Standard x := by
    intro x
    unfold crc32Standard pq_crc32_default
    rw [crcRegisterBitwise_eq]
  refine ⟨(crcRegisterBitwise_eq d c).symm, hstd d, ?_, by decide⟩
  rw [← hstd]
  decide

/-- C13, counterexample: on a medium that stores only the first six bytes written to the
file `/q/0000000005-00`, `enqueue(5, {1,2,3}, 3)` of a queue with CRC returns true with
`PQ_ERROR_OK`, and the new file holds the tag and the first two payload bytes: six bytes
instead of the eleven of tag, payload and CRC.  A later `dequeue` of it fails with
`PQ_ERROR_FILE_OP`. -/
theorem enqueue_true_with_short_write :
    (begin (construct PQ_DEFAULT_MN PQ_DEQUEUE_OLDEST true 0) shortWriteDir ['/', 'q']).2 =
      freshQueue PQ_DEFAULT_MN PQ_DEQUEUE_OLDEST true ∧
    (enqueue (freshQueue PQ_DEFAULT_MN PQ_DEQUEUE_OLDEST true) shortWriteDir 5 [1, 2, 3] 3).1 =
      true ∧
    getLastError
      (enqueue (freshQueue PQ_DEFAULT_MN PQ_DEQUEUE_OLDEST true) shortWriteDir 5 [1, 2, 3]
        3).2.1 = PQ_ERROR_OK ∧
    (enqueue (freshQueue PQ_DEFAULT_MN PQ_DEQUEUE_OLDEST true) shortWriteDir 5 [1, 2, 3]
        3).2.2.entries =
      [⟨"/q/0000000005-00".toList, false, le32 PQ_DEFAULT_MN ++ [1, 2]⟩] ∧
    (le32 PQ_DEFAULT_MN ++ [1, 2, 3] ++ le32 (pq_crc32_default [1, 2, 3])).length = 11 ∧
    getLastError
      (dequeue
        (enqueue (freshQueue PQ_DEFAULT_MN PQ_DEQUEUE_OLDEST true) shortWriteDir 5 [1, 2, 3]
          3).2.1
        (enqueue (freshQueue PQ_DEFAULT_MN PQ_DEQUEUE_OLDEST true) shortWriteDir 5 [1, 2, 3]
          3).2.2 (some [0, 0, 0]) 3 0 true).q = PQ_ERROR_FILE_OP := by
  decide

/-- C13 as amended (on-disk body): an `enqueue(name, P, |P|)` that returns true found the
file names of all sub-indices below some `i < 100` existing and the name of sub-index `i`
not existing, and created that one file: the filesystem afterwards is the one before with
one more file (listed after the existing children of the directory, or recorded outside
it) and nothing else changed.  The bytes handed to `write` are the four bytes of `m_magic`,
least significant first, then the bytes of `P`, then, exactly when CRCs are on, the four
bytes of `pq_crc32(P)`, least significant first: `|P| + 4` bytes without and `|P| + 8` with
CRC.  What `write` returns is not looked at: the new file holds, in their order, those of
these bytes that the filesystem stored, and it holds all of them when no byte of the file
is left unwritten. -/
theorem enqueue_writes_body (q : PersistentQueue) (fs : FS) (name : Nat) (P : List Byte)
    (h : (enqueue q fs name P P.length).1 = true) :
    ∃ i fn body, i < PQ_MAX_SUBFILENAMES ∧
      fn = fileName q.m_prefix (if u32 name = 0 then q.m_counter else u32 name) i ∧
      body = le32 q.m_magic ++ P ++
        (if q.m_calcCRC then le32 (pq_crc32_default P) else []) ∧
      body.length = P.length + (if q.m_calcCRC then 8 else 4) ∧
      (∀ k < i, fsExists fs q.m_prefix
        (fileName q.m_prefix (if u32 name = 0 then q.m_counter else u32 name) k) = true) ∧
      fsExists fs q.m_prefix fn = false ∧
      fsCreate fs q.m_prefix fn body = some (enqueue q fs name P P.length).2.2 ∧
      ((enqueue q fs name P P.length).2.2 =
          { fs with entries := fs.entries ++
            [⟨if fs.pathNames then fn else fn.drop (q.m_prefix.length + 1), false,
              fsStored fs fn body⟩] } ∨
        (enqueue q fs name P P.length).2.2 =
          { fs with elsewhere := fs.elsewhere ++ [(fn, fsStored fs fn body)] }) ∧
      (fsStored fs fn body).Sublist body ∧
      ((∀ lost, fs.unwritten.lookup fn = some lost → ∀ j ∈ lost, body.length ≤ j) →
        fsStored fs fn body = body) := by
  have hbody : ∀ q2 : PersistentQueue, q2.m_magic = q.m_magic → q2.m_calcCRC = q.m_calcCRC →
      fileBody q2 P P.length = le32 q.m_magic ++ P ++
        (if q.m_calcCRC then le32 (pq_crc32_default P) else []) := by
    intro q2 h1 h2
    simp [fileBody, h1, h2]
  have hlen : (le32 q.m_magic ++ P ++
      (if q.m_calcCRC then le32 (pq_crc32_default P) else [])).length =
      P.length + (if q.m_calcCRC then 8 else 4) := by
    cases q.m_calcCRC <;> simp [le32]
  cases hi : q.m_initialized
  · simp [enqueue, checkInitialized, hi] at h
  · have h1 : checkInitialized q = (true, q) := by simp [checkInitialized, hi]
    unfold enqueue at h ⊢
    rw [h1] at h ⊢
    simp only [Bool.not_true, Bool.false_eq_true, if_false] at h ⊢
    by_cases h0 : u32 name = 0
    · rw [if_pos h0] at h ⊢
      simp only [h0, if_true]
      obtain ⟨j, _, hj, hk, hex, hcr⟩ := enqueueLoop_true _ _ _ _ _ _ _ h
      rw [hbody { q with m_counter := u32 (q.m_counter + 1) } rfl rfl] at hcr
      exact ⟨j, _, _, by simp only [PQ_MAX_SUBFILENAMES] at hj ⊢; omega, rfl, rfl, hlen,
        fun k hk2 => hk k (by omega) hk2, hex, hcr, fsCreate_shape hcr,
        fsStored_sublist _ _ _, fsStored_complete _ _ _⟩
    · rw [if_neg h0] at h ⊢
      simp only [h0, if_false]
      obtain ⟨j, _, hj, hk, hex, hcr⟩ := enqueueLoop_true _ _ _ _ _ _ _ h
      rw [hbody q rfl rfl] at hcr
      exact ⟨j, _, _, by simp only [PQ_MAX_SUBFILENAMES] at hj ⊢; omega, rfl, rfl, hlen,
        fun k hk2 => hk k (by omega) hk2, hex, hcr, fsCreate_shape hcr,
        fsStored_sublist _ _ _, fsStored_complete _ _ _⟩

/-- Instance of `enqueue_writes_body`: `enqueue(5, {1,2,3}, 3)` on a fresh queue with CRC
over an empty directory on a filesystem that stores every byte. -/
theorem enqueue_writes_body_witness :
    (enqueue (freshQueue PQ_DEFAULT_MN PQ_DEQUEUE_OLDEST true) emptyDir 5 [1, 2, 3]
      [1, 2, 3].length).1 = true ∧
    oneMessage.2.2.entries =
      [⟨"/q/0000000005-00".toList, false,
        le32 PQ_DEFAULT_MN ++ [1, 2, 3] ++ le32 (pq_crc32_default [1, 2, 3])⟩] ∧
    ∃ i fn body, i < PQ_MAX_SUBFILENAMES ∧
      fn = fileName (PersistentQueue.m_prefix (freshQueue PQ_DEFAULT_MN PQ_DEQUEUE_OLDEST true))
        (if u32 5 = 0 then (freshQueue PQ_DEFAULT_MN PQ_DEQUEUE_OLDEST true).m_counter
          else u32 5) i ∧
      body = le32 (freshQueue PQ_DEFAULT_MN PQ_DEQUEUE_OLDEST true).m_magic ++ [1, 2, 3] ++
        (if (freshQueue PQ_DEFAULT_MN PQ_DEQUEUE_OLDEST true).m_calcCRC
          then le32 (pq_crc32_default [1, 2, 3]) else []) ∧
      body.length = [1, 2, 3].length +
        (if (freshQueue PQ_DEFAULT_MN PQ_DEQUEUE_OLDEST true).m_calcCRC then 8 else 4) ∧
      (fsStored emptyDir fn body).Sublist body :=
  ⟨by decide, by decide,
    (enqueue_writes_body (freshQueue PQ_DEFAULT_MN PQ_DEQUEUE_OLDEST true) emptyDir 5 [1, 2, 3]
      (by decide)).imp fun _ hi => hi.imp fun _ hf => hf.imp fun _ hb =>
        ⟨hb.1, hb.2.1, hb.2.2.1, hb.2.2.2.1, hb.2.2.2.2.2.2.2.2.1⟩⟩

/-- C14 (file name format), evaluated: the 17-character prefix `/aaaaaaaaaaaaaaaa` is
normalised and not longer than `PQ_MAX_PREFIX_SIZE = 18`, yet the name for sequence number
5, sub-index 0 loses its last digit (`snprintf` with size 31 stores 30 characters), and the
sub-indices 0 to 9 all give that one name; under the prefix `/q` the sequence number
`4294967295` is printed by `%010d` as `-000000001`. -/
theorem fileName_truncated_or_signed :
    seventeenChars.length = 17 ∧ PQ_MAX_PREFIX_SIZE = 18 ∧
    normalizePrefix seventeenChars = seventeenChars ∧
    fileName seventeenChars 5 0 = "/aaaaaaaaaaaaaaaa/0000000005-0".toList ∧
    expectedFileName seventeenChars 5 0 = "/aaaaaaaaaaaaaaaa/0000000005-00".toList ∧
    fileName seventeenChars 5 9 = fileName seventeenChars 5 0 ∧
    fileName ['/', 'q'] 4294967295 0 = "/q/-000000001-00".toList ∧
    expectedFileName ['/', 'q'] 4294967295 0 = "/q/4294967295-00".toList := by
  decide

/-- C15 (selection in fast mode), evaluated where `file.name()` returns bare names: after
`enqueue(10000001, {10}, 1)` and `enqueue(5, {50}, 1)` on the prefix `/q` the directory
lists `0010000001-00` and `0000000005-00`, whose sequence fields decode to 10000001 and 5.
The scan cuts the name at the offset of a full path and decodes 1 and 5: in OLDEST order
`findNextMessage(true)` returns `0010000001-00` and `dequeue` delivers the message numbered
10000001 before the one numbered 5, and in LATEST order `0000000005-00` is returned. -/
theorem fast_selection_bare_names :
    bareNamesTwo.1 = true ∧
    bareNamesTwo.2.1.m_initialized = true ∧ bareNamesTwo.2.2.isDirectory = true ∧
    bareNamesTwo.2.2.entries.map (fun e => e.name) =
      ["0010000001-00".toList, "0000000005-00".toList] ∧
    bareNamesTwo.2.2.entries.map (hasSequenceNumber bareNamesTwo.2.2 ['/', 'q']) =
      [true, true] ∧
    bareNamesTwo.2.2.entries.map (sequenceNumber bareNamesTwo.2.2 ['/', 'q']) =
      [10000001, 5] ∧
    (findNextMessage bareNamesTwo.2.1 bareNamesTwo.2.2 true PQ_DEQUEUE_OLDEST).1 =
      "0010000001-00".toList ∧
    (findNextMessage bareNamesTwo.2.1 bareNamesTwo.2.2 true PQ_DEQUEUE_LATEST).1 =
      "0000000005-00".toList ∧
    (dequeue bareNamesTwo.2.1 bareNamesTwo.2.2 (some [0]) 1 0 true).ret = true ∧
    (dequeue bareNamesTwo.2.1 bareNamesTwo.2.2 (some [0]) 1 0 true).data = some [10] := by
  decide

/-- C16, the case that fails: the queue with magic number `0` on a directory whose only
child is an empty file.  No child stores four bytes, yet the full check reports a
message. -/
theorem empty_file_counts_as_message :
    zeroMagicQueue.m_initialized = true ∧ zeroMagicQueue.m_magic = 0 ∧
    emptyFileDir.isDirectory = true ∧
    emptyFileDir.entries.map (fun e => e.content.length) = [0] ∧
    isQueueEmpty zeroMagicQueue emptyFileDir false =
      (false, { zeroMagicQueue with m_lastError := PQ_ERROR_OK }) := by
  decide

/-- C16 (emptiness check) as the code has it: for an initialised queue whose prefix is a
directory, `isQueueEmpty(true)` is true exactly when the directory has no child, and
`isQueueEmpty(false)` is true exactly when of no child the first four bytes, read into a
zeroed `uint32_t` (a file shorter than four bytes leaves the missing bytes zero, a
sub-directory is read like a file), give the magic number; for a child of at least four
bytes that is: its first four bytes are not the magic number in little-endian order.  A
true result has the last error `PQ_ERROR_OK`; when the prefix is not a directory the
result is false with `PQ_ERROR_INVALID_PREFIX`. -/
theorem isQueueEmpty_characterisation (q : PersistentQueue) (fs : FS) :
    (q.m_initialized = true → fs.isDirectory = true →
      ((isQueueEmpty q fs true).1 = true ↔ fs.entries = []) ∧
      ((isQueueEmpty q fs false).1 = true ↔
        ∀ e ∈ fs.entries, rd32 e.content ≠ q.m_magic)) ∧
    (q.m_magic < 4294967296 → ∀ e : Entry, 4 ≤ e.content.length →
      (rd32 e.content = q.m_magic ↔ e.content.take 4 = le32 q.m_magic)) ∧
    (∀ fc, (isQueueEmpty q fs fc).1 = true →
      getLastError (isQueueEmpty q fs fc).2 = PQ_ERROR_OK) ∧
    (q.m_initialized = true → fs.isDirectory = false → ∀ fc,
      isQueueEmpty q fs fc = (false, { q with m_lastError := PQ_ERROR_INVALID_PREFIX })) := by
  refine ⟨?_, ?_, ?_, ?_⟩
  · intro hinit hdir
    have h1 : checkInitialized q = (true, q) := by simp [checkInitialized, hinit]
    unfold isQueueEmpty
    rw [h1]
    simp only [hdir, Bool.not_true, Bool.false_eq_true, if_false]
    exact ⟨isQueueEmptyLoop_fast _ _, isQueueEmptyLoop_full _ _⟩
  · intro hm e he
    constructor
    · intro h
      rw [← h, le32_rd32 _ he]
    · intro h
      rw [← rd32_take, h, rd32_le32 _ hm]
  · intro fc
    unfold isQueueEmpty checkInitialized getLastError
    split_ifs <;> simp
  · intro hinit hdir fc
    have h1 : checkInitialized q = (true, q) := by simp [checkInitialized, hinit]
    unfold isQueueEmpty
    rw [h1]
    simp [hdir]

/-- C17, counterexample: after three auto-numbered enqueues (counter 4) and one dequeue in
`PQ_DEQUEUE_LATEST` order, a call of `begin` on the same directory sets the counter to 3. -/
theorem begin_lowers_counter :
    afterThreeAndOne.ret = true ∧
    afterThreeAndOne.q.m_counter = 4 ∧
    afterThreeAndOne.fs.entries.map (fun e => e.name) =
      ["/q/0000000001-00".toList, "/q/0000000002-00".toList] ∧
    (begin afterThreeAndOne.q afterThreeAndOne.fs ['/', 'q']).2.m_counter = 3 := by
  decide

/-- C17 as amended (sequence counter): `end`, `isQueueEmpty`, both `dequeue` variants,
`purge` and `enqueue` with a non-zero sequence argument leave `m_counter` as it was;
`enqueue` with sequence argument 0 on an initialised queue adds one modulo `2^32`; so, as
long as the counter is below `2^32 - 1`, none of these operations lowers it. `begin` leaves
the counter alone when `isQueueEmpty(false)` holds for the normalised prefix and otherwise
assigns one more (modulo `2^32`) than the watermark `m_current_max` after its
`PQ_DEQUEUE_LATEST` scan, whatever the counter was. -/
theorem counter_changes (q : PersistentQueue) (fs : FS) (name : Nat) (data : List Byte)
    (len : Nat) (buf : Option (List Byte)) (cap al : Nat) (pdata : Option (List Byte))
    (plen : Nat) (fast_check mallocOk : Bool) (pfx : Str) :
    (end_ q).m_counter = q.m_counter ∧
    (isQueueEmpty q fs fast_check).2.m_counter = q.m_counter ∧
    (dequeue q fs buf cap al fast_check).q.m_counter = q.m_counter ∧
    (dequeueAlloc q fs pdata plen fast_check mallocOk).q.m_counter = q.m_counter ∧
    (purge q fs fast_check).2.1.m_counter = q.m_counter ∧
    (u32 name ≠ 0 → (enqueue q fs name data len).2.1.m_counter = q.m_counter) ∧
    (enqueue q fs 0 data len).2.1.m_counter =
      (if q.m_initialized then u32 (q.m_counter + 1) else q.m_counter) ∧
    (q.m_counter < UINT32_MAX → q.m_counter ≤ (enqueue q fs name data len).2.1.m_counter) ∧
    ((isQueueEmpty { q with m_prefix := normalizePrefix pfx, m_initialized := true } fs
        false).1 = true → (begin q fs pfx).2.m_counter = q.m_counter) ∧
    ((isQueueEmpty { q with m_prefix := normalizePrefix pfx, m_initialized := true } fs
        false).1 = false →
      (begin q fs pfx).2.m_counter =
        u32 ((findNextMessage { q with m_prefix := normalizePrefix pfx, m_initialized := true }
          fs false PQ_DEQUEUE_LATEST).2.m_current_max + 1)) := by
  have henq : ∀ n, (enqueue q fs n data len).2.1.m_counter =
      if q.m_initialized = true ∧ u32 n = 0 then u32 (q.m_counter + 1) else q.m_counter := by
    intro n
    unfold enqueue checkInitialized
    cases q.m_initialized
    · simp
    · simp only [Bool.not_true, Bool.false_eq_true, if_false, true_and]
      split <;> rw [enqueueLoop_counter]
  refine ⟨rfl, isQueueEmpty_counter q fs fast_check, ?_, ?_, purge_counter q fs fast_check,
    ?_, ?_, ?_, ?_, ?_⟩
  · rcases dequeue_both q fs buf cap al pdata plen fast_check mallocOk with
      ⟨q1, _, hk, hd, _⟩ | ⟨q1, F, _, _, _, hk, hd, _⟩
    · rw [hd]; exact hk
    · rw [hd, (dequeueOpened_facts _ _ _ _ _ _ _).2.1]; exact hk
  · rcases dequeue_both q fs buf cap al pdata plen fast_check mallocOk with
      ⟨q1, _, hk, _, hd⟩ | ⟨q1, F, _, _, _, hk, _, hd⟩
    · rw [hd]; exact hk
    · rw [hd, (dequeueAllocOpened_facts _ _ _ _ _ _ _).2.1]; exact hk
  · intro h
    rw [henq, if_neg (fun hh => h hh.2)]
  · rw [henq]
    cases q.m_initialized <;> simp [u32]
  · intro h
    rw [henq]
    split
    · unfold UINT32_MAX at h
      unfold u32
      omega
    · exact le_refl _
  · intro h
    unfold begin
    simp only [h, Bool.not_true, Bool.false_eq_true, if_false]
    exact isQueueEmpty_counter _ fs false
  · intro h
    unfold begin
    simp only [h, Bool.not_false, if_true]
    have hq : (isQueueEmpty { q with m_prefix := normalizePrefix pfx, m_initialized := true } fs
        false).2 = { ({ q with m_prefix := normalizePrefix pfx, m_initialized := true } :
          PersistentQueue) with m_lastError :=
          (isQueueEmpty { q with m_prefix := normalizePrefix pfx, m_initialized := true } fs
            false).2.m_lastError } := by
      unfold isQueueEmpty checkInitialized
      cases fs.isDirectory <;> simp
    rw [hq, findNextMessage_max_setErr]

/-- C18, counterexample: `begin("")` and `begin("/")` store the empty prefix, which does
not start with a slash. -/
theorem begin_empty_prefix :
    PersistentQueue.m_prefix
      (begin (construct PQ_DEFAULT_MN PQ_DEQUEUE_OLDEST true 0) emptyDir []).2 = [] ∧
    PersistentQueue.m_prefix
      (begin (construct PQ_DEFAULT_MN PQ_DEQUEUE_OLDEST true 0) emptyDir ['/']).2 = [] ∧
    startsWith (PersistentQueue.m_prefix
      (begin (construct PQ_DEFAULT_MN PQ_DEQUEUE_OLDEST true 0) emptyDir []).2) ['/'] =
        false := by
  decide

/-- C18 as amended (prefix normalisation): for every string `p` passed to `begin` the
stored prefix does not end with a slash; it starts with a slash when `p` holds a character
other than a slash, and it is empty when `p` is empty or made of slashes only; calling
`begin` with the stored prefix stores the same prefix again. -/
theorem prefix_normalisation (q : PersistentQueue) (fs fs2 : FS) (p : Str) :
    endsWith (PersistentQueue.m_prefix (begin q fs p).2) ['/'] = false ∧
    ((∃ c ∈ p, c ≠ '/') →
      startsWith (PersistentQueue.m_prefix (begin q fs p).2) ['/'] = true) ∧
    ((∀ c ∈ p, c = '/') → PersistentQueue.m_prefix (begin q fs p).2 = []) ∧
    PersistentQueue.m_prefix
      (begin (begin q fs p).2 fs2 (PersistentQueue.m_prefix (begin q fs p).2)).2 =
      PersistentQueue.m_prefix (begin q fs p).2 := by
  rw [begin_stores_normalized, begin_stores_normalized]
  refine ⟨strip_not_endsWith _, ?_, normalizePrefix_all_slashes p, normalizePrefix_idem p⟩
  intro h
  rcases normalizePrefix_nil_or_slash p with h1 | h1
  · exact absurd h1 (normalizePrefix_ne_nil p h)
  · exact h1

/-- C19 (variant equivalence): for every object state, filesystem state and `fast_check`,
the allocating `dequeue` with a successful `malloc` and the buffer `dequeue` with a
non-null buffer whose `len` is at least the payload length of the selected file (file size
minus 4, or minus 8 with CRC) return the same flag and leave the same object state (so the
same last error) and the same filesystem; when they return true they report the same
length, and the allocated block holds exactly the bytes found at the start of the buffer,
which is zero behind them. -/
theorem dequeue_variants_agree (q : PersistentQueue) (fs : FS) (fc : Bool) (buf : List Byte)
    (len al : Nat) (data2 : Option (List Byte)) (len2 : Nat)
    (hcap : ∀ F ∈ fsOpenRead fs q.m_prefix
        (fullPath q (findNextMessage q fs fc PQ_DEQUEUE_DEFAULT).1),
      F.length - (if q.m_calcCRC then 8 else 4) ≤ len) :
    (dequeueAlloc q fs data2 len2 fc true).ret = (dequeue q fs (some buf) len al fc).ret ∧
    (dequeueAlloc q fs data2 len2 fc true).q = (dequeue q fs (some buf) len al fc).q ∧
    (dequeueAlloc q fs data2 len2 fc true).fs = (dequeue q fs (some buf) len al fc).fs ∧
    ((dequeueAlloc q fs data2 len2 fc true).ret = true →
      (dequeueAlloc q fs data2 len2 fc true).len =
        (dequeue q fs (some buf) len al fc).actual_len ∧
      ∃ p, (dequeueAlloc q fs data2 len2 fc true).data = some p ∧
        p.length = (dequeueAlloc q fs data2 len2 fc true).len ∧
        (dequeue q fs (some buf) len al fc).data =
          some (p ++ List.replicate (len - p.length) 0)) := by
  rcases dequeue_both q fs (some buf) len al data2 len2 fc true with
    ⟨q1, _, _, hd, ha⟩ | ⟨q1, F, _, ho, hc, _, hd, ha⟩
  · rw [hd, ha]
    simp
  · rw [hd, ha]
    have h := hcap F ho
    rw [← hc.2.2.1] at h
    exact opened_variants_agree q1 fs _ F buf len al data2 len2 h

/-- Instance of `dequeue_variants_agree`: the stored message `{1,2,3}` fetched with a
four-byte buffer and with allocation. -/
theorem dequeue_variants_agree_witness :
    (dequeueAlloc oneMessage.2.1 oneMessage.2.2 none 0 true true).ret =
      (dequeue oneMessage.2.1 oneMessage.2.2 (some [9, 9, 9, 9]) 4 0 true).ret ∧
    (dequeueAlloc oneMessage.2.1 oneMessage.2.2 none 0 true true).q =
      (dequeue oneMessage.2.1 oneMessage.2.2 (some [9, 9, 9, 9]) 4 0 true).q ∧
    (dequeueAlloc oneMessage.2.1 oneMessage.2.2 none 0 true true).fs =
      (dequeue oneMessage.2.1 oneMessage.2.2 (some [9, 9, 9, 9]) 4 0 true).fs ∧
    (dequeueAlloc oneMessage.2.1 oneMessage.2.2 none 0 true true).ret = true ∧
    (dequeueAlloc oneMessage.2.1 oneMessage.2.2 none 0 true true).data = some [1, 2, 3] ∧
    (dequeue oneMessage.2.1 oneMessage.2.2 (some [9, 9, 9, 9]) 4 0 true).data =
      some [1, 2, 3, 0] :=
  have h := dequeue_variants_agree oneMessage.2.1 oneMessage.2.2 true [9, 9, 9, 9] 4 0 none 0
    (by decide)
  ⟨h.1, h.2.1, h.2.2.1, by decide, by decide, by decide⟩

/-- C20 (result and last error agree): `enqueue`, both `dequeue` variants and `purge`
return true exactly when they leave `m_lastError` at `PQ_ERROR_OK`, for every object state,
filesystem state and argument. -/
theorem result_matches_last_error (q : PersistentQueue) (fs : FS) (name : Nat)
    (data : List Byte) (len : Nat) (buf : Option (List Byte)) (cap al : Nat)
    (pdata : Option (List Byte)) (plen : Nat) (fast_check mallocOk : Bool) :
    ((enqueue q fs name data len).1 = true ↔
      getLastError (enqueue q fs name data len).2.1 = PQ_ERROR_OK) ∧
    ((dequeue q fs buf cap al fast_check).ret = true ↔
      getLastError (dequeue q fs buf cap al fast_check).q = PQ_ERROR_OK) ∧
    ((dequeueAlloc q fs pdata plen fast_check mallocOk).ret = true ↔
      getLastError (dequeueAlloc q fs pdata plen fast_check mallocOk).q = PQ_ERROR_OK) ∧
    ((purge q fs fast_check).1 = true ↔
      getLastError (purge q fs fast_check).2.1 = PQ_ERROR_OK) := by
  unfold getLastError
  refine ⟨?_, ?_, ?_, ?_⟩
  · unfold enqueue checkInitialized
    cases q.m_initialized
    · simp
    · simp only [Bool.not_true, Bool.false_eq_true, if_false]
      split <;> exact enqueueLoop_consistent _ _ _ _ _ _ _
  · rcases dequeue_both q fs buf cap al pdata plen fast_check mallocOk with
      ⟨q1, he, _, hd, _⟩ | ⟨q1, F, _, _, _, _, hd, _⟩
    · rw [hd]; simpa using he
    · rw [hd]; exact (dequeueOpened_facts _ _ _ _ _ _ _).1
  · rcases dequeue_both q fs buf cap al pdata plen fast_check mallocOk with
      ⟨q1, he, _, _, hd⟩ | ⟨q1, F, _, _, _, _, _, hd⟩
    · rw [hd]; simpa using he
    · rw [hd]; exact (dequeueAllocOpened_facts _ _ _ _ _ _ _).1
  · unfold purge checkInitialized
    cases q.m_initialized
    · simp
    · cases fs.isDirectory
      · simp
      · simp only [Bool.not_true, Bool.false_eq_true, if_false]
        exact purgeLoop_consistent _ _ _ _ _ (by simp)

end PQ
